import Mathlib

/-!
# Kioto Susi: the cart ledger

A shallow embedding of the cart logic of the three page scripts
(`scripts/main.js`, `scripts/dish.js`, `scripts/cart.js`).

Modelling conventions.

* JavaScript numbers: prices are rationals (`ℚ`), quantities, indices and
  discount percentages are integers (`Int`), dish identifiers are naturals.
  The functions that compute money amounts are given twice. `calculateSubtotal`,
  `displayCart` and `checkout` carry the formulas with exact arithmetic;
  `calculateSubtotalDouble`, `displayCartDouble` and `checkoutDouble` round the
  result of every operation to binary64 (`toDouble`), which is what JavaScript
  computes, and the bounds on the totals are stated for them. `NaN` (an
  unparsable quantity field) is outside the model, so every `quantity` argument
  below is the integer that `parseInt` produced.
* `localStorage` is a record with one optional field per key; the
  `JSON.stringify` / `JSON.parse` round trip is the identity on stored values.
* Module-level variables of a page (`dishesData`, `currentDish`, `promocodes`,
  `appliedPromocode`) are explicit arguments or fields of the page state.
* Strings are sequences of Unicode characters (an unpaired surrogate is outside
  the model). `trim` strips the white space of ECMAScript; `toUpperCase` maps
  every character to its upper-case form, fixed here for ASCII and taken from a
  parameter, the Unicode case table, for every other character. Statements that
  hold for every table hold for the table of the platform.
* The DOM (rendering, notifications, input fields) is not part of the state; the
  text of an input field is an argument of the function that reads it.
-/

namespace KiotoSusi

/-! ## Data model -/

/-- An entry of `window.APP_DATA.dishes` (`data/dishes-data.js`). -/
structure Dish where
  id : Nat
  name : String
  description : String
  price : ℚ
  image : String
  category : String
  ingredients : List String
  deriving DecidableEq

/-- An element of the array stored under the key `cart`: the object literal
pushed by the three add-to-cart functions. -/
structure CartItem where
  dishId : Nat
  name : String
  price : ℚ
  quantity : Int
  image : String
  deriving DecidableEq

/-- An entry of `window.APP_DATA.promocodes`. -/
structure Promocode where
  code : String
  discount : Int
  deriving DecidableEq

/-- The two keys of `localStorage` the scripts use; `none` is an absent key. -/
structure LocalStorage where
  cart : Option (List CartItem)
  appliedPromocode : Option Promocode
  deriving DecidableEq

/-- The state of the cart page (`cart.js`): its two module-level variables and
the storage. -/
structure CartPage where
  promocodes : List Promocode
  appliedPromocode : Option Promocode
  storage : LocalStorage
  deriving DecidableEq

/-- How a call of a cart-page function ends. -/
inductive Outcome where
  /-- the function ran to its end -/
  | ok
  /-- `cart[index]` was `undefined` and reading its `quantity` threw a `TypeError` -/
  | typeError
  deriving DecidableEq

/-! ## Array primitives -/

/-- `Array.prototype.findIndex`: the first index whose element satisfies `p`,
or `-1`. -/
def findIndex {α : Type} (p : α → Bool) (xs : List α) : Int :=
  if List.findIdx p xs < xs.length then (List.findIdx p xs : Int) else -1

/-- `Array.prototype.find`: the first element that satisfies `p`, or `undefined`. -/
def find {α : Type} (p : α → Bool) (xs : List α) : Option α :=
  List.find? p xs

/-- Indexed read `xs[i]` for an integer `i`: `undefined` (`none`) outside
`0 ≤ i < xs.length`. -/
def getAt {α : Type} (xs : List α) (i : Int) : Option α :=
  if i < 0 then none else xs[i.toNat]?

/-- `Array.prototype.splice(start, deleteCount)` with no inserted elements, for an
integer `start`: a negative `start` counts from the end, a `start` past the end
is clamped to the length. Returns the array that remains. -/
def splice {α : Type} (xs : List α) (start : Int) (deleteCount : Nat) : List α :=
  let len := xs.length
  let actualStart : Nat := if start < 0 then ((len : Int) + start).toNat else min start.toNat len
  let actualDeleteCount : Nat := min deleteCount (len - actualStart)
  xs.take actualStart ++ xs.drop (actualStart + actualDeleteCount)

/-- The compound assignment `cart[i].quantity += change` on the element at a
valid position `i`; the other fields of the element are not touched. -/
def addQuantityAt (cart : List CartItem) (i : Nat) (change : Int) : List CartItem :=
  match cart[i]? with
  | some item => cart.set i { item with quantity := item.quantity + change }
  | none => cart

/-! ## String primitives -/

/-- The code points that `String.prototype.trim` strips: the `WhiteSpace` and
`LineTerminator` productions of ECMAScript. -/
def isWhiteSpace (c : Char) : Bool :=
  [0x9, 0xA, 0xB, 0xC, 0xD, 0x20, 0xA0, 0x1680, 0x2028, 0x2029, 0x202F, 0x205F, 0x3000,
    0xFEFF].contains c.toNat || (decide (0x2000 ≤ c.toNat) && decide (c.toNat ≤ 0x200A))

/-- `String.prototype.trim`: the text without its leading and trailing white space. -/
def trim (s : String) : String :=
  String.mk ((s.data.dropWhile isWhiteSpace).rdropWhile isWhiteSpace)

/-- The upper-case form of one character. For an ASCII character it is the
character itself, or the capital letter for `a` to `z`. For every other character
it is given by the case tables of Unicode (`UnicodeData.txt` and
`SpecialCasing.txt`), which are part of the platform, not of the repository: they
are the parameter `unicodeUpper`, which may return several characters. -/
def upperOf (unicodeUpper : Char → List Char) (c : Char) : List Char :=
  if c.toNat < 128 then [Char.toUpper c] else unicodeUpper c

/-- `String.prototype.toUpperCase`: every character replaced by its upper-case
form, with `unicodeUpper` the Unicode table for the characters outside ASCII. -/
def toUpperCase (unicodeUpper : Char → List Char) (s : String) : String :=
  String.mk (s.data.flatMap (upperOf unicodeUpper))

/-! ## Binary64 arithmetic -/

/-- The integer nearest to a rational, the even one of the two when it lies
half-way between them. -/
def roundHalfEven (t : ℚ) : Int :=
  let f := ⌊t⌋
  if t - (f : ℚ) < 1 / 2 then f
  else if 1 / 2 < t - (f : ℚ) then f + 1
  else if f % 2 = 0 then f else f + 1

/-- The JavaScript number that an exact result is rounded to: the nearest value
with a significand of 53 bits, ties to even. With `e` the binary exponent of `x`
(`2 ^ e ≤ |x| < 2 ^ (e + 1)`) the values near `x` are the multiples of
`2 ^ (e - 52)`. The exponent is not bounded here: overflow to `Infinity` and the
subnormal range below `2 ^ (-1022)` are outside the model. -/
def toDouble (x : ℚ) : ℚ :=
  if x = 0 then 0
  else
    (roundHalfEven (x / (2 : ℚ) ^ (Int.log 2 |x| - 52)) : ℚ) *
      (2 : ℚ) ^ (Int.log 2 |x| - 52)

/-! ## Storage access (identical in the three scripts) -/

/-- `getCart()`: the parsed array under key `cart`, or `[]` when the key is absent. -/
def getCart (ls : LocalStorage) : List CartItem :=
  match ls.cart with
  | some cart => cart
  | none => []

/-- The statement `localStorage.setItem('cart', JSON.stringify(cart))`. -/
def setCart (ls : LocalStorage) (cart : List CartItem) : LocalStorage :=
  { ls with cart := some cart }

/-! ## Adding to the cart -/

/-- `addToCartFromCard(dish)` of `main.js`, with `quantity` the parsed value of
the card's quantity field. -/
def addToCartFromCard (dish : Dish) (quantity : Int) (ls : LocalStorage) : LocalStorage :=
  let cart := getCart ls
  let existingItemIndex := findIndex (fun item => decide (item.dishId = dish.id)) cart
  if existingItemIndex ≠ -1 then
    setCart ls (addQuantityAt cart existingItemIndex.toNat quantity)
  else
    setCart ls (cart ++ [{ dishId := dish.id, name := dish.name, price := dish.price,
                           quantity := quantity, image := dish.image }])

/-- `addToCart()` of `dish.js`, with `quantity` the parsed value of the page's
quantity field: returns at once when `currentDish` is not set. -/
def addToCart (currentDish : Option Dish) (quantity : Int) (ls : LocalStorage) :
    LocalStorage :=
  match currentDish with
  | none => ls
  | some currentDish =>
    let cart := getCart ls
    let existingItemIndex :=
      findIndex (fun item => decide (item.dishId = currentDish.id)) cart
    if existingItemIndex ≠ -1 then
      setCart ls (addQuantityAt cart existingItemIndex.toNat quantity)
    else
      setCart ls (cart ++ [{ dishId := currentDish.id, name := currentDish.name,
                             price := currentDish.price, quantity := quantity,
                             image := currentDish.image }])

/-- `addToCartFromSimilarCard(dishId)` of `dish.js`: returns at once when the
catalog has no dish with that id, and when the parsed quantity is `0` or below `1`. -/
def addToCartFromSimilarCard (dishesData : List Dish) (dishId : Nat) (quantity : Int)
    (ls : LocalStorage) : LocalStorage :=
  match find (fun item => decide (item.id = dishId)) dishesData with
  | none => ls
  | some dish =>
    if quantity = 0 ∨ quantity < 1 then ls
    else
      let cart := getCart ls
      let existingItemIndex := findIndex (fun item => decide (item.dishId = dish.id)) cart
      if existingItemIndex ≠ -1 then
        setCart ls (addQuantityAt cart existingItemIndex.toNat quantity)
      else
        setCart ls (cart ++ [{ dishId := dish.id, name := dish.name, price := dish.price,
                               quantity := quantity, image := dish.image }])

/-! ## The cart page (`cart.js`) -/

/-- `calculateSubtotal()`: the `reduce` over the stored cart. The function
writes nothing, so the page state it hands on is the one it received. -/
def calculateSubtotal (s : CartPage) : ℚ × CartPage :=
  let cart := getCart s.storage
  (cart.foldl (fun sum item => sum + item.price * (item.quantity : ℚ)) 0, s)

/-- The three constants `subtotal`, `discount`, `total` that `displayCart` and
`checkout` compute with the same three statements. -/
structure Totals where
  subtotal : ℚ
  discount : ℚ
  total : ℚ
  deriving DecidableEq

/-- What `displayCart()` renders: the empty-cart notice, or the list of lines
with the totals block. The totals are the values before `toFixed(2)`. -/
inductive CartView where
  | emptyCart
  | lines (items : List CartItem) (totals : Totals)
  deriving DecidableEq

/-- `displayCart()`: returns early on an empty cart; otherwise computes the
totals from `calculateSubtotal()` and the module variable `appliedPromocode`. -/
def displayCart (s : CartPage) : CartView :=
  let cart := getCart s.storage
  if cart.length = 0 then CartView.emptyCart
  else
    let subtotal := (calculateSubtotal s).1
    let discount : ℚ :=
      match s.appliedPromocode with
      | some promocode => subtotal * (promocode.discount : ℚ) / 100
      | none => 0
    let total := subtotal - discount
    CartView.lines cart { subtotal := subtotal, discount := discount, total := total }

/-- `updateCartQuantity(index, change)`: adds `change` to the quantity at
`index`, removes the line when the result is `≤ 0`, and stores the array. When
`cart[index]` is `undefined` the first statement throws and nothing is stored. -/
def updateCartQuantity (index change : Int) (s : CartPage) : Outcome × CartPage :=
  let cart := getCart s.storage
  match getAt cart index with
  | none => (Outcome.typeError, s)
  | some item =>
    let cart := addQuantityAt cart index.toNat change
    let cart := if item.quantity + change ≤ 0 then splice cart index 1 else cart
    (Outcome.ok, { s with storage := setCart s.storage cart })

/-- `removeFromCart(index)`: `cart.splice(index, 1)` on the stored cart, then
stores the array. No statement of it can throw on a bad index. -/
def removeFromCart (index : Int) (s : CartPage) : Outcome × CartPage :=
  let cart := getCart s.storage
  let cart := splice cart index 1
  (Outcome.ok, { s with storage := setCart s.storage cart })

/-- What `checkout()` reports through `alert`. -/
inductive CheckoutReport where
  /-- the alert of the empty-cart guard -/
  | emptyCart
  /-- the order confirmation: the item count and the totals computed before
  the state is cleared -/
  | ordered (totalQuantity : Int) (totals : Totals)
  deriving DecidableEq

/-- `checkout()`: on an empty cart it alerts and returns; otherwise it computes
the totals and the item count, then removes both keys from storage and resets
`appliedPromocode`. -/
def checkout (s : CartPage) : CheckoutReport × CartPage :=
  let cart := getCart s.storage
  if cart.length = 0 then (CheckoutReport.emptyCart, s)
  else
    let subtotal := (calculateSubtotal s).1
    let discount : ℚ :=
      match s.appliedPromocode with
      | some promocode => subtotal * (promocode.discount : ℚ) / 100
      | none => 0
    let total := subtotal - discount
    let totalQuantity := cart.foldl (fun sum item => sum + item.quantity) 0
    (CheckoutReport.ordered totalQuantity
        { subtotal := subtotal, discount := discount, total := total },
      { s with storage := { cart := none, appliedPromocode := none },
               appliedPromocode := none })


/-- `calculateSubtotal()` with the rounding of JavaScript numbers made explicit:
every product and every sum of the `reduce` is rounded to binary64. -/
def calculateSubtotalDouble (s : CartPage) : ℚ :=
  let cart := getCart s.storage
  cart.foldl
    (fun sum item => toDouble (sum + toDouble (item.price * (item.quantity : ℚ)))) 0

/-- `displayCart()` with the rounding of JavaScript numbers made explicit: the
product `subtotal * discount`, its quotient by 100 and the difference
`subtotal - discount` are each rounded to binary64. -/
def displayCartDouble (s : CartPage) : CartView :=
  let cart := getCart s.storage
  if cart.length = 0 then CartView.emptyCart
  else
    let subtotal := calculateSubtotalDouble s
    let discount : ℚ :=
      match s.appliedPromocode with
      | some promocode => toDouble (toDouble (subtotal * (promocode.discount : ℚ)) / 100)
      | none => 0
    let total := toDouble (subtotal - discount)
    CartView.lines cart { subtotal := subtotal, discount := discount, total := total }

/-- `checkout()` with the rounding of JavaScript numbers made explicit in the three
statements that compute the totals; the item count is a sum of whole numbers. -/
def checkoutDouble (s : CartPage) : CheckoutReport × CartPage :=
  let cart := getCart s.storage
  if cart.length = 0 then (CheckoutReport.emptyCart, s)
  else
    let subtotal := calculateSubtotalDouble s
    let discount : ℚ :=
      match s.appliedPromocode with
      | some promocode => toDouble (toDouble (subtotal * (promocode.discount : ℚ)) / 100)
      | none => 0
    let total := toDouble (subtotal - discount)
    let totalQuantity := cart.foldl (fun sum item => sum + item.quantity) 0
    (CheckoutReport.ordered totalQuantity
        { subtotal := subtotal, discount := discount, total := total },
      { s with storage := { cart := none, appliedPromocode := none },
               appliedPromocode := none })

/-- What `applyPromocode()` writes into the message area. -/
inductive PromoOutcome where
  /-- the trimmed text is empty: the error `Введите промокод` (enter a promo code) -/
  | invalidInput
  /-- no registry entry has the code: the error `Неверный промокод` (invalid promo
  code) -/
  | notFound
  /-- the success message, which quotes the normalised code and the discount; the
  call of `displayCart()` that follows it renders the summary block again, with
  an empty message area -/
  | applied (code : String) (discount : Int)
  deriving DecidableEq

/-- `applyPromocode()`, with `input` the value of the promo code field: trims and
upper-cases the text, rejects the empty text, looks the code up in `promocodes`
with `===`, and on a hit sets `appliedPromocode` and stores it. -/
def applyPromocode (unicodeUpper : Char → List Char) (input : String) (s : CartPage) :
    PromoOutcome × CartPage :=
  let code := toUpperCase unicodeUpper (trim input)
  if code = "" then (PromoOutcome.invalidInput, s)
  else
    match find (fun pc => decide (pc.code = code)) s.promocodes with
    | some promocode =>
      (PromoOutcome.applied code promocode.discount,
        { s with appliedPromocode := some promocode,
                 storage := { s.storage with appliedPromocode := some promocode } })
    | none => (PromoOutcome.notFound, s)

/-- `removePromocode()`: resets `appliedPromocode` and removes the stored key. -/
def removePromocode (s : CartPage) : Outcome × CartPage :=
  (Outcome.ok,
    { s with appliedPromocode := none,
             storage := { s.storage with appliedPromocode := none } })

/-- Whether the call applied a promo code. -/
def PromoOutcome.succeeded : PromoOutcome → Bool
  | PromoOutcome.applied _ _ => true
  | _ => false

/-- Equality of two texts when letter case is ignored. -/
def equalsIgnoringCase (unicodeUpper : Char → List Char) (a b : String) : Prop :=
  toUpperCase unicodeUpper a = toUpperCase unicodeUpper b

/-- The text `written` is `code` with each character as it is or in lower case. -/
def IsCaseVariant (written code : String) : Prop :=
  List.Forall₂ (fun w c => w = c ∨ w = Char.toLower c) written.data code.data

/-- The text consists of white space only (it may be empty). -/
def IsBlank (text : String) : Prop :=
  ∀ c ∈ text.data, isWhiteSpace c = true

/-- A registry as the data file writes it: every code is non-empty and in upper
case. -/
def UpperCaseRegistry (unicodeUpper : Char → List Char) (promocodes : List Promocode) :
    Prop :=
  ∀ pc ∈ promocodes, pc.code ≠ "" ∧ toUpperCase unicodeUpper pc.code = pc.code


/-! ## Sequences of add-to-cart calls -/

/-- One add-to-cart call together with the page variables it reads. -/
inductive AddCall where
  /-- `addToCartFromCard(dish)` on the menu page -/
  | fromCard (dish : Dish) (quantity : Int)
  /-- `addToCart()` on the dish page -/
  | fromDishPage (currentDish : Option Dish) (quantity : Int)
  /-- `addToCartFromSimilarCard(dishId)` on the dish page -/
  | fromSimilarCard (dishesData : List Dish) (dishId : Nat) (quantity : Int)

/-- The effect of a call on the storage. -/
def AddCall.run : AddCall → LocalStorage → LocalStorage
  | AddCall.fromCard dish quantity, ls => addToCartFromCard dish quantity ls
  | AddCall.fromDishPage currentDish quantity, ls => addToCart currentDish quantity ls
  | AddCall.fromSimilarCard dishesData dishId quantity, ls =>
    addToCartFromSimilarCard dishesData dishId quantity ls

/-- The dish a call is about, when there is one. -/
def AddCall.dish : AddCall → Option Dish
  | AddCall.fromCard dish _ => some dish
  | AddCall.fromDishPage currentDish _ => currentDish
  | AddCall.fromSimilarCard dishesData dishId _ =>
    find (fun item => decide (item.id = dishId)) dishesData

/-- The quantity a call asks for. -/
def AddCall.quantity : AddCall → Int
  | AddCall.fromCard _ quantity => quantity
  | AddCall.fromDishPage _ quantity => quantity
  | AddCall.fromSimilarCard _ _ quantity => quantity

/-- A call with a dish and a quantity of at least one. -/
def AddCall.Valid (c : AddCall) : Prop :=
  (∃ dish, c.dish = some dish) ∧ 1 ≤ c.quantity

/-- Whether a call is about the dish with identifier `id`. -/
def AddCall.adds (id : Nat) (c : AddCall) : Bool :=
  match c.dish with
  | some dish => decide (dish.id = id)
  | none => false

/-- Runs the calls from left to right. -/
def runCalls (calls : List AddCall) (ls : LocalStorage) : LocalStorage :=
  calls.foldl (fun ls c => c.run ls) ls

/-- The sum of the quantities of the calls about the dish `id`. -/
def addedQuantity (id : Nat) (calls : List AddCall) : Int :=
  ((calls.filter (AddCall.adds id)).map AddCall.quantity).sum

/-- The lines of a cart that carry the dish `id`, in cart order. -/
def linesOf (id : Nat) (cart : List CartItem) : List CartItem :=
  cart.filter (fun item => decide (item.dishId = id))

/-- The sum of the quantities of the lines of a cart that carry the dish `id`. -/
def quantityOf (id : Nat) (cart : List CartItem) : Int :=
  ((linesOf id cart).map CartItem.quantity).sum

/-- Increment the first line carrying the dish, or append a new line: the
increment-or-push branch of the add-to-cart functions as a recursion on the cart. -/
def mergeLine (dish : Dish) (quantity : Int) : List CartItem → List CartItem
  | [] => [{ dishId := dish.id, name := dish.name, price := dish.price,
             quantity := quantity, image := dish.image }]
  | item :: rest =>
    if item.dishId = dish.id then { item with quantity := item.quantity + quantity } :: rest
    else item :: mergeLine dish quantity rest

/-! ## Ledger operations -/

/-- One ledger operation together with its arguments. -/
inductive LedgerOp where
  /-- an add-to-cart call on the menu page or the dish page -/
  | add (call : AddCall)
  /-- `updateCartQuantity(index, change)` on the cart page -/
  | adjustQuantity (index change : Int)
  /-- `removeFromCart(index)` on the cart page -/
  | removeLine (index : Int)
  /-- `checkout()` on the cart page -/
  | checkOut

/-- The page state after an operation. An add-to-cart call runs on another page
and writes only the storage. -/
def LedgerOp.run : LedgerOp → CartPage → CartPage
  | LedgerOp.add call, s => { s with storage := call.run s.storage }
  | LedgerOp.adjustQuantity index change, s => (updateCartQuantity index change s).2
  | LedgerOp.removeLine index, s => (removeFromCart index s).2
  | LedgerOp.checkOut, s => (checkout s).2

/-- The preconditions under which the operations are used: an add has a dish and a
quantity of at least one, an index addresses a line of the stored cart. -/
def LedgerOp.Valid : LedgerOp → CartPage → Prop
  | LedgerOp.add call, _ => call.Valid
  | LedgerOp.adjustQuantity index _, s =>
    0 ≤ index ∧ index < ((getCart s.storage).length : Int)
  | LedgerOp.removeLine index, s =>
    0 ≤ index ∧ index < ((getCart s.storage).length : Int)
  | LedgerOp.checkOut, _ => True

/-- Every line of the cart has a quantity of at least one. -/
def QuantitiesPositive (cart : List CartItem) : Prop :=
  ∀ item ∈ cart, 1 ≤ item.quantity

/-- The page states reached from an empty cart by valid operations. -/
inductive Reachable : CartPage → Prop where
  | start (s : CartPage) : getCart s.storage = [] → Reachable s
  | step (s : CartPage) (op : LedgerOp) : Reachable s → op.Valid s → Reachable (op.run s)

/-! ## Page load and promo operations -/

/-- `loadAppliedPromocode()`: when the key `appliedPromocode` is stored, its
parsed value becomes the module variable; otherwise the variable is left alone. -/
def loadAppliedPromocode (s : CartPage) : CartPage :=
  match s.storage.appliedPromocode with
  | some savedPromocode => { s with appliedPromocode := some savedPromocode }
  | none => s

/-- `loadData()`: takes the registry from `window.APP_DATA.promocodes`; the rest
of it renders. -/
def loadData (appData : List Promocode) (s : CartPage) : CartPage :=
  { s with promocodes := appData }

/-- A fresh start of the cart page on a given storage: the module variables
start as `[]` and `null`, then the `DOMContentLoaded` handler runs
`loadAppliedPromocode()` and `loadData()`. -/
def pageLoad (appData : List Promocode) (storage : LocalStorage) : CartPage :=
  loadData appData
    (loadAppliedPromocode { promocodes := [], appliedPromocode := none, storage := storage })

/-- One promo-related step on the cart page. -/
inductive PromoOp where
  /-- `applyPromocode()` with the given text in the input field -/
  | apply (input : String)
  /-- `removePromocode()` -/
  | remove
  /-- `checkout()` -/
  | checkOut
  /-- a call of `loadAppliedPromocode()` in the running page -/
  | loadApplied
  /-- a reload of the page -/
  | reload

/-- The page state after a promo-related step; `appData` is the registry of the
data file, which a reload reads again. -/
def PromoOp.run (unicodeUpper : Char → List Char) (appData : List Promocode) :
    PromoOp → CartPage → CartPage
  | PromoOp.apply input, s => (applyPromocode unicodeUpper input s).2
  | PromoOp.remove, s => (removePromocode s).2
  | PromoOp.checkOut, s => (checkout s).2
  | PromoOp.loadApplied, s => loadAppliedPromocode s
  | PromoOp.reload, s => pageLoad appData s.storage

/-- Runs the steps from left to right. -/
def runPromoOps (unicodeUpper : Char → List Char) (appData : List Promocode)
    (ops : List PromoOp) (s : CartPage) : CartPage :=
  ops.foldl (fun s op => op.run unicodeUpper appData s) s

/-- An optional promo code is absent or equal in code and discount to an entry of
the registry. -/
def FromRegistry (registry : List Promocode) (applied : Option Promocode) : Prop :=
  ∀ pc, applied = some pc →
    ∃ entry ∈ registry, pc.code = entry.code ∧ pc.discount = entry.discount

/-- The module variable `appliedPromocode` agrees with the stored key: both
absent, or both the same code and discount. -/
def PromoAgrees (s : CartPage) : Prop :=
  s.appliedPromocode = s.storage.appliedPromocode

/-- The bounds on computed totals under a discount percentage `D`: discount and
total lie between zero and the subtotal, the total is the subtotal at `D = 0` and
zero at `D = 100`. -/
def Totals.WithinBounds (D : Int) (t : Totals) : Prop :=
  0 ≤ t.discount ∧ t.discount ≤ t.subtotal ∧ 0 ≤ t.total ∧ t.total ≤ t.subtotal ∧
    (D = 0 → t.total = t.subtotal) ∧ (D = 100 → t.total = 0)

/-- The cart page whose stored cart holds three portions at the price `0.07`, that
is at the JavaScript number nearest to it, `1261007895663739 / 2 ^ 54`, with a
promo code of 100 % applied. -/
def fractionalPricePage : CartPage :=
  { promocodes := [{ code := "FREE", discount := 100 }],
    appliedPromocode := some { code := "FREE", discount := 100 },
    storage := { cart := some [{ dishId := 1, name := "Филадельфия",
                                 price := 1261007895663739 / 2 ^ 54,
                                 quantity := 3, image := "" }],
                 appliedPromocode := some { code := "FREE", discount := 100 } } }

/-- The totals that JavaScript computes for three portions at `0.07` under a promo
code of 100 %. -/
def fractionalTotals : Totals :=
  { subtotal := 3783023686991217 / 2 ^ 54,
    discount := 7566047373982435 / 2 ^ 55,
    total := -1 / 2 ^ 55 }

/-- The cart page whose stored cart holds one line of quantity zero, as
`addToCartFromCard` leaves it when the quantity field holds `0`. -/
def zeroQuantityPage : CartPage :=
  { promocodes := [],
    appliedPromocode := none,
    storage := { cart := some [{ dishId := 1, name := "Филадельфия", price := 450,
                                 quantity := 0, image := "" }],
                 appliedPromocode := none } }

/-- An excerpt of the Unicode upper-case table, enough for the sample inputs: the
long s and the dotless i, the sharp s (two characters), and the Cyrillic letters
`а` to `я`. Every other character is mapped to itself here, which the full table
does not do for the remaining cased letters. -/
def unicodeUpperExcerpt (c : Char) : List Char :=
  if c = 'ſ' then ['S']
  else if c = 'ı' then ['I']
  else if c = 'ß' then ['S', 'S']
  else if 0x430 ≤ c.toNat ∧ c.toNat ≤ 0x44F then [Char.ofNat (c.toNat - 32)]
  else [c]

/-! ## Sample data -/

/-- The first catalog entry of `data/dishes-data.js`. -/
def philadelphia : Dish :=
  { id := 1, name := "Филадельфия",
    description := "Классический ролл с лососем, сливочным сыром и свежим огурцом в нори, идеально сбалансированный по вкусу и текстуре.",
    price := 450,
    image := "https://images.unsplash.com/photo-1617196034183-421b4917c92d?w=600&h=400&fit=crop",
    category := "Роллы",
    ingredients := ["Лосось", "Сливочный сыр", "Огурец", "Нори", "Рис"] }

/-- The second catalog entry of `data/dishes-data.js`. -/
def california : Dish :=
  { id := 2, name := "Калифорния",
    description := "Легендарный ролл с нежным крабом, спелым авокадо и икрой тобико, покрытый рисом и хрустящими семенами.",
    price := 380,
    image := "https://www.foodland.ru/upload/iblock/a82/a82c720dfe8ffb750dd545ee43b59e22.jpg",
    category := "Роллы",
    ingredients := ["Краб", "Авокадо", "Икра тобико", "Нори", "Рис"] }

/-- The array `window.APP_DATA.promocodes` of `data/dishes-data.js`. -/
def promocodesData : List Promocode :=
  [{ code := "WELCOME10", discount := 10 },
   { code := "SAKURA15", discount := 15 },
   { code := "SUSHI20", discount := 20 }]

/-- A storage in which neither key has been written. -/
def freshStorage : LocalStorage := { cart := none, appliedPromocode := none }

/-- A storage whose key `cart` holds the given array and that has no promo code. -/
def storedCart (cart : List CartItem) : LocalStorage :=
  { cart := some cart, appliedPromocode := none }

/-- The cart page holding two portions of the first dish and one of the second,
with the 15 % promo code applied and stored. -/
def sampleCartPage : CartPage :=
  { promocodes := promocodesData,
    appliedPromocode := some { code := "SAKURA15", discount := 15 },
    storage := { cart := some [{ dishId := 1, name := "Филадельфия", price := 450,
                                 quantity := 2, image := "" },
                               { dishId := 2, name := "Калифорния", price := 380,
                                 quantity := 1, image := "" }],
                 appliedPromocode := some { code := "SAKURA15", discount := 15 } } }

/-- The cart page with a registry whose single code is written in mixed case. -/
def mixedCaseRegistryPage : CartPage :=
  { promocodes := [{ code := "Sushi20", discount := 20 }],
    appliedPromocode := none,
    storage := freshStorage }

/-- The line the add-to-cart functions push for a dish and a quantity. -/
def lineFor (dish : Dish) (quantity : Int) : CartItem :=
  { dishId := dish.id, name := dish.name, price := dish.price, quantity := quantity,
    image := dish.image }

/-- Three calls, one through each entry point: two portions of the first dish
from the menu card, one of the second from its dish page, three more of the first
from a similar-dish card. -/
def sampleCalls : List AddCall :=
  [AddCall.fromCard philadelphia 2,
   AddCall.fromDishPage (some california) 1,
   AddCall.fromSimilarCard [philadelphia, california] 1 3]

/-! ## Lemmas on the array primitives -/

theorem findIndex_nil {α : Type} (p : α → Bool) : findIndex p [] = -1 := by
  simp [findIndex]

theorem findIndex_cons {α : Type} (p : α → Bool) (x : α) (xs : List α) :
    findIndex p (x :: xs) =
      if p x then 0 else if findIndex p xs = -1 then -1 else findIndex p xs + 1 := by
  unfold findIndex
  rw [List.findIdx_cons]
  by_cases hx : p x
  · simp [hx]
  · simp only [hx, Bool.false_eq_true, if_false, List.length_cons,
      Nat.add_lt_add_iff_right, cond_false]
    by_cases h : List.findIdx p xs < xs.length
    · simp only [h, if_true]
      have : ((List.findIdx p xs : Nat) : Int) ≠ -1 := by omega
      simp [this]
    · simp [h]

theorem findIndex_ge {α : Type} (p : α → Bool) (xs : List α) : -1 ≤ findIndex p xs := by
  unfold findIndex
  split <;> omega

theorem findIndex_eq_neg_one_iff {α : Type} (p : α → Bool) (xs : List α) :
    findIndex p xs = -1 ↔ ∀ x ∈ xs, p x = false := by
  induction xs with
  | nil => simp [findIndex_nil]
  | cons x xs ih =>
    rw [findIndex_cons]
    have hge := findIndex_ge p xs
    by_cases hx : p x
    · simp [hx]
    · simp only [hx, Bool.false_eq_true, if_false, List.mem_cons, forall_eq_or_imp]
      by_cases h : findIndex p xs = -1
      · simp [h, ih.mp h]
        exact ih.mp h
      · simp only [h, if_false]
        constructor
        · intro h1; omega
        · intro h1; exact absurd (ih.mpr h1.2) h

/-- The increment-or-push branch computed through `findIndex` is `mergeLine`. -/
theorem add_branch_eq_mergeLine (dish : Dish) (quantity : Int) (cart : List CartItem) :
    (if findIndex (fun item => decide (item.dishId = dish.id)) cart ≠ -1 then
        addQuantityAt cart (findIndex (fun item => decide (item.dishId = dish.id)) cart).toNat
          quantity
      else cart ++ [{ dishId := dish.id, name := dish.name, price := dish.price,
                      quantity := quantity, image := dish.image }]) =
      mergeLine dish quantity cart := by
  induction cart with
  | nil => simp [findIndex_nil, mergeLine]
  | cons item rest ih =>
    rw [findIndex_cons]
    have hge := findIndex_ge (fun item : CartItem => decide (item.dishId = dish.id)) rest
    by_cases hx : item.dishId = dish.id
    · simp [hx, mergeLine, addQuantityAt]
    · simp only [hx, decide_False, Bool.false_eq_true, if_false, mergeLine]
      by_cases h : findIndex (fun item : CartItem => decide (item.dishId = dish.id)) rest = -1
      · simp only [h, if_true, ne_eq, not_true_eq_false, if_false] at ih ⊢
        simp [ih]
      · simp only [h, if_false, ne_eq, not_false_eq_true, if_true] at ih ⊢
        have hne : findIndex (fun item : CartItem => decide (item.dishId = dish.id)) rest + 1
            ≠ -1 := by omega
        simp only [hne, not_false_eq_true, if_true]
        rw [← ih]
        have hnat : (findIndex (fun item : CartItem => decide (item.dishId = dish.id)) rest
            + 1).toNat =
            (findIndex (fun item : CartItem => decide (item.dishId = dish.id)) rest).toNat
              + 1 := by omega
        rw [hnat]
        simp [addQuantityAt]
        split <;> simp

/-! ## Lemmas on adding a line -/

theorem getCart_setCart (ls : LocalStorage) (cart : List CartItem) :
    getCart (setCart ls cart) = cart := rfl

theorem getCart_addToCartFromCard (dish : Dish) (quantity : Int) (ls : LocalStorage) :
    getCart (addToCartFromCard dish quantity ls) = mergeLine dish quantity (getCart ls) := by
  rw [← add_branch_eq_mergeLine]
  unfold addToCartFromCard
  simp only []
  split <;> rfl

theorem getCart_addToCart (dish : Dish) (quantity : Int) (ls : LocalStorage) :
    getCart (addToCart (some dish) quantity ls) = mergeLine dish quantity (getCart ls) := by
  rw [← add_branch_eq_mergeLine]
  unfold addToCart
  simp only []
  split <;> rfl

theorem getCart_addToCartFromSimilarCard (dishesData : List Dish) (dishId : Nat)
    (dish : Dish) (quantity : Int) (ls : LocalStorage)
    (hfind : find (fun item => decide (item.id = dishId)) dishesData = some dish)
    (hq : 1 ≤ quantity) :
    getCart (addToCartFromSimilarCard dishesData dishId quantity ls) =
      mergeLine dish quantity (getCart ls) := by
  rw [← add_branch_eq_mergeLine]
  unfold addToCartFromSimilarCard
  have hguard : ¬ (quantity = 0 ∨ quantity < 1) := by omega
  simp only [hfind, hguard, if_false]
  split <;> rfl

/-- Every valid call acts on the stored cart as `mergeLine` with its dish. -/
theorem AddCall.getCart_run (c : AddCall) (dish : Dish) (ls : LocalStorage)
    (hdish : c.dish = some dish) (hq : 1 ≤ c.quantity) :
    getCart (c.run ls) = mergeLine dish c.quantity (getCart ls) := by
  cases c with
  | fromCard d q =>
    simp only [AddCall.dish, Option.some.injEq] at hdish
    subst hdish
    exact getCart_addToCartFromCard d q ls
  | fromDishPage cd q =>
    simp only [AddCall.dish] at hdish
    subst hdish
    exact getCart_addToCart dish q ls
  | fromSimilarCard data id q =>
    exact getCart_addToCartFromSimilarCard data id dish q ls hdish hq

theorem mergeLine_of_absent (dish : Dish) (quantity : Int) (cart : List CartItem)
    (habsent : ∀ item ∈ cart, item.dishId ≠ dish.id) :
    mergeLine dish quantity cart =
      cart ++ [{ dishId := dish.id, name := dish.name, price := dish.price,
                 quantity := quantity, image := dish.image }] := by
  induction cart with
  | nil => rfl
  | cons item rest ih =>
    have h1 : item.dishId ≠ dish.id := habsent item (List.mem_cons_self _ _)
    have h2 : ∀ x ∈ rest, x.dishId ≠ dish.id :=
      fun x hx => habsent x (List.mem_cons_of_mem _ hx)
    simp [mergeLine, h1, ih h2]

theorem length_mergeLine_of_present (dish : Dish) (quantity : Int) (cart : List CartItem)
    (hpresent : ∃ item ∈ cart, item.dishId = dish.id) :
    (mergeLine dish quantity cart).length = cart.length := by
  induction cart with
  | nil => simp at hpresent
  | cons item rest ih =>
    by_cases h1 : item.dishId = dish.id
    · simp [mergeLine, h1]
    · have h2 : ∃ x ∈ rest, x.dishId = dish.id := by
        obtain ⟨x, hx, hid⟩ := hpresent
        rcases List.mem_cons.mp hx with rfl | hx
        · exact absurd hid h1
        · exact ⟨x, hx, hid⟩
      simp [mergeLine, h1, ih h2]

theorem quantityOf_cons (id : Nat) (item : CartItem) (rest : List CartItem) :
    quantityOf id (item :: rest) =
      (if item.dishId = id then item.quantity else 0) + quantityOf id rest := by
  unfold quantityOf linesOf
  by_cases h : item.dishId = id <;> simp [List.filter_cons, h]

/-- Adding a dish raises the quantity held for its identifier by the added
amount and leaves the quantity held for every other identifier alone. -/
theorem quantityOf_mergeLine (id : Nat) (dish : Dish) (quantity : Int)
    (cart : List CartItem) :
    quantityOf id (mergeLine dish quantity cart) =
      quantityOf id cart + (if dish.id = id then quantity else 0) := by
  induction cart with
  | nil =>
    by_cases h : dish.id = id <;> simp [mergeLine, quantityOf, linesOf, h]
  | cons item rest ih =>
    unfold mergeLine
    by_cases h1 : item.dishId = dish.id
    · rw [if_pos h1, quantityOf_cons, quantityOf_cons]
      by_cases h : dish.id = id
      · have h3 : item.dishId = id := h1.trans h
        simp only [h3, h, if_true]
        omega
      · have h3 : ¬ item.dishId = id := fun e => h (h1 ▸ e)
        simp only [h3, h, if_false]
        omega
    · rw [if_neg h1, quantityOf_cons, quantityOf_cons, ih]
      omega

theorem linesOf_cons (id : Nat) (item : CartItem) (rest : List CartItem) :
    linesOf id (item :: rest) =
      if item.dishId = id then item :: linesOf id rest else linesOf id rest := by
  unfold linesOf
  by_cases h : item.dishId = id <;> simp [List.filter_cons, h]

/-- Adding a dish creates a line for its identifier only when there was none,
and never changes how many lines another identifier has. -/
theorem length_linesOf_mergeLine (id : Nat) (dish : Dish) (quantity : Int)
    (cart : List CartItem) :
    (linesOf id (mergeLine dish quantity cart)).length =
      if dish.id = id ∧ (linesOf id cart).length = 0 then 1
      else (linesOf id cart).length := by
  induction cart with
  | nil =>
    by_cases h : dish.id = id <;> simp [mergeLine, linesOf, h]
  | cons item rest ih =>
    unfold mergeLine
    by_cases h1 : item.dishId = dish.id
    · rw [if_pos h1, linesOf_cons, linesOf_cons]
      by_cases h : dish.id = id
      · have h3 : item.dishId = id := h1.trans h
        simp [h3, h]
      · have h3 : ¬ item.dishId = id := fun e => h (h1 ▸ e)
        simp [h3, h]
    · rw [if_neg h1, linesOf_cons, linesOf_cons]
      by_cases h3 : item.dishId = id
      · have h : ¬ dish.id = id := fun e => h1 (h3.trans e.symm)
        simp only [h3, if_true, List.length_cons, ih, h, false_and, if_false]
      · simp only [h3, if_false, ih]

theorem runCalls_cons (c : AddCall) (calls : List AddCall) (ls : LocalStorage) :
    runCalls (c :: calls) ls = runCalls calls (c.run ls) := rfl

theorem addedQuantity_cons (id : Nat) (c : AddCall) (calls : List AddCall) :
    addedQuantity id (c :: calls) =
      (if c.adds id = true then c.quantity else 0) + addedQuantity id calls := by
  unfold addedQuantity
  by_cases h : c.adds id = true <;> simp [List.filter_cons, h]

/-- What a run of valid calls does to the lines and the quantity held for one
identifier, from an arbitrary stored cart. -/
theorem runCalls_lines (id : Nat) (calls : List AddCall) :
    ∀ ls : LocalStorage, (∀ c ∈ calls, c.Valid) →
      ((linesOf id (getCart ls)).length ≤ 1 →
        (linesOf id (getCart (runCalls calls ls))).length ≤ 1) ∧
      (linesOf id (getCart ls)).length ≤ (linesOf id (getCart (runCalls calls ls))).length ∧
      ((∃ c ∈ calls, c.adds id = true) →
        1 ≤ (linesOf id (getCart (runCalls calls ls))).length) ∧
      quantityOf id (getCart (runCalls calls ls)) =
        quantityOf id (getCart ls) + addedQuantity id calls := by
  induction calls with
  | nil =>
    intro ls _
    simp [runCalls, addedQuantity]
  | cons c calls ih =>
    intro ls hvalid
    have hc : c.Valid := hvalid c (List.mem_cons_self _ _)
    obtain ⟨⟨dish, hdish⟩, hq⟩ := hc
    have hrest : ∀ c' ∈ calls, c'.Valid := fun c' h => hvalid c' (List.mem_cons_of_mem _ h)
    obtain ⟨ih1, ih2, ih3, ih4⟩ := ih (c.run ls) hrest
    have hrun := AddCall.getCart_run c dish ls hdish hq
    have hlen := length_linesOf_mergeLine id dish c.quantity (getCart ls)
    have hqty := quantityOf_mergeLine id dish c.quantity (getCart ls)
    have hadds : (c.adds id = true) ↔ dish.id = id := by
      simp [AddCall.adds, hdish]
    rw [runCalls_cons, addedQuantity_cons]
    rw [hrun] at ih1 ih2 ih4
    rw [hlen] at ih1 ih2
    refine ⟨?_, ?_, ?_, ?_⟩
    · intro h
      apply ih1
      split <;> omega
    · refine le_trans ?_ ih2
      split <;> omega
    · rintro ⟨c', hmem, hc'⟩
      rcases List.mem_cons.mp hmem with rfl | hmem
      · have hid : dish.id = id := hadds.mp hc'
        refine le_trans ?_ ih2
        split <;> omega
      · exact ih3 ⟨c', hmem, hc'⟩
    · rw [ih4, hqty]
      by_cases hid : dish.id = id
      · rw [if_pos hid, if_pos (hadds.mpr hid)]
        omega
      · have hno : ¬ (c.adds id = true) := fun e => hid (hadds.mp e)
        rw [if_neg hid, if_neg hno]
        omega

/-! ## Lemmas on the cart page -/

theorem foldl_add_eq_sum {α : Type} (f : α → ℚ) (xs : List α) :
    ∀ acc : ℚ, xs.foldl (fun sum item => sum + f item) acc = acc + (xs.map f).sum := by
  induction xs with
  | nil => intro acc; simp
  | cons x xs ih =>
    intro acc
    simp only [List.foldl_cons, List.map_cons, List.sum_cons, ih]
    ring

theorem getAt_natCast {α : Type} (xs : List α) (i : Nat) : getAt xs (i : Int) = xs[i]? := by
  unfold getAt
  have h : ¬ ((i : Int) < 0) := by omega
  simp [h]

theorem getAt_out_of_bounds {α : Type} (xs : List α) (i : Int)
    (h : i < 0 ∨ (xs.length : Int) ≤ i) : getAt xs i = none := by
  unfold getAt
  by_cases hneg : i < 0
  · simp [hneg]
  · simp only [hneg, if_false]
    apply List.getElem?_eq_none
    omega

theorem splice_one_of_lt {α : Type} (xs : List α) (i : Nat) (h : i < xs.length) :
    splice xs (i : Int) 1 = xs.eraseIdx i := by
  unfold splice
  have hneg : ¬ ((i : Int) < 0) := by omega
  have h1 : min i xs.length = i := by omega
  have h2 : min 1 (xs.length - i) = 1 := by omega
  simp only [hneg, if_false, Int.toNat_ofNat, h1, h2]
  rw [List.eraseIdx_eq_take_drop_succ]

theorem eraseIdx_set_self {α : Type} (xs : List α) (a : α) :
    ∀ i : Nat, (xs.set i a).eraseIdx i = xs.eraseIdx i := by
  induction xs with
  | nil => intro i; simp
  | cons x xs ih =>
    intro i
    cases i with
    | zero => simp
    | succ i => simp [ih i]

theorem addQuantityAt_of_get (cart : List CartItem) (i : Nat) (change : Int)
    (item : CartItem) (hget : cart[i]? = some item) :
    addQuantityAt cart i change =
      cart.set i { item with quantity := item.quantity + change } := by
  unfold addQuantityAt
  rw [hget]

theorem lt_length_of_getElem?_eq_some {α : Type} (xs : List α) (i : Nat) (a : α)
    (hget : xs[i]? = some a) : i < xs.length := by
  rcases Nat.lt_or_ge i xs.length with h | h
  · exact h
  · rw [List.getElem?_eq_none h] at hget
    exact absurd hget (by simp)

/-- With a valid index and a resulting quantity of at most zero,
`updateCartQuantity` stores the cart without the line at the index. -/
theorem updateCartQuantity_remove (s : CartPage) (i : Nat) (change : Int) (item : CartItem)
    (hget : (getCart s.storage)[i]? = some item) (hle : item.quantity + change ≤ 0) :
    updateCartQuantity (i : Int) change s =
      (Outcome.ok, { s with storage := setCart s.storage ((getCart s.storage).eraseIdx i) }) := by
  have hlt := lt_length_of_getElem?_eq_some _ _ _ hget
  unfold updateCartQuantity
  simp only [getAt_natCast, hget, Int.toNat_ofNat, hle, if_true]
  rw [addQuantityAt_of_get _ _ _ _ hget, splice_one_of_lt _ _ (by simpa using hlt),
    eraseIdx_set_self]

/-- With a valid index and a resulting quantity of at least one,
`updateCartQuantity` stores the cart with the quantity at the index changed. -/
theorem updateCartQuantity_keep (s : CartPage) (i : Nat) (change : Int) (item : CartItem)
    (hget : (getCart s.storage)[i]? = some item) (hge : 1 ≤ item.quantity + change) :
    updateCartQuantity (i : Int) change s =
      (Outcome.ok, { s with storage := (setCart s.storage
        ((getCart s.storage).set i { item with quantity := item.quantity + change })) }) := by
  have hnot : ¬ (item.quantity + change ≤ 0) := by omega
  unfold updateCartQuantity
  simp only [getAt_natCast, hget, Int.toNat_ofNat, hnot, if_false]
  rw [addQuantityAt_of_get _ _ _ _ hget]

/-- With a valid index `removeFromCart` stores the cart without the line at the
index. -/
theorem removeFromCart_valid (s : CartPage) (i : Nat) (hlt : i < (getCart s.storage).length) :
    removeFromCart (i : Int) s =
      (Outcome.ok, { s with storage := setCart s.storage ((getCart s.storage).eraseIdx i) }) := by
  unfold removeFromCart
  simp only [splice_one_of_lt _ _ hlt]

/-! ## The claims -/

/-- C1. Uniqueness: after any finite sequence of valid add-to-cart calls (through
any of the three entry points, each with a dish and a quantity of at least one)
on an initially empty cart, no dish identifier has more than one line, and every
identifier that was added has exactly one line, whose quantity is the sum of the
quantities added for it. -/
theorem add_calls_unique_and_summed (calls : List AddCall) (ls : LocalStorage)
    (hempty : getCart ls = []) (hvalid : ∀ c ∈ calls, c.Valid) :
    (∀ id, (linesOf id (getCart (runCalls calls ls))).length ≤ 1) ∧
    (∀ id, (∃ c ∈ calls, ∃ dish, c.dish = some dish ∧ dish.id = id) →
      ∃ item, item ∈ getCart (runCalls calls ls) ∧ item.dishId = id ∧
        linesOf id (getCart (runCalls calls ls)) = [item] ∧
        item.quantity = addedQuantity id calls) := by
  refine ⟨?_, ?_⟩
  · intro id
    obtain ⟨h1, _, _, _⟩ := runCalls_lines id calls ls hvalid
    apply h1
    simp [hempty, linesOf]
  · rintro id ⟨c, hmem, dish, hdish, hid⟩
    obtain ⟨h1, _, h3, h4⟩ := runCalls_lines id calls ls hvalid
    have hle := h1 (by simp [hempty, linesOf])
    have hge := h3 ⟨c, hmem, by simp [AddCall.adds, hdish, hid]⟩
    have hone : (linesOf id (getCart (runCalls calls ls))).length = 1 := by omega
    obtain ⟨item, hitem⟩ := List.length_eq_one.mp hone
    have hin : item ∈ linesOf id (getCart (runCalls calls ls)) := by simp [hitem]
    unfold linesOf at hin
    rw [List.mem_filter] at hin
    refine ⟨item, hin.1, by simpa using hin.2, hitem, ?_⟩
    have hq : quantityOf id (getCart (runCalls calls ls)) = item.quantity := by
      simp [quantityOf, hitem]
    rw [← hq, h4]
    simp [hempty, quantityOf, linesOf]

/-- A valid instance of C1: the three sample calls on a fresh storage. -/
theorem add_calls_unique_and_summed_witness :
    (getCart freshStorage = [] ∧ ∀ c ∈ sampleCalls, c.Valid) ∧
    ((∀ id, (linesOf id (getCart (runCalls sampleCalls freshStorage))).length ≤ 1) ∧
     (∀ id, (∃ c ∈ sampleCalls, ∃ dish, c.dish = some dish ∧ dish.id = id) →
        ∃ item, item ∈ getCart (runCalls sampleCalls freshStorage) ∧ item.dishId = id ∧
          linesOf id (getCart (runCalls sampleCalls freshStorage)) = [item] ∧
          item.quantity = addedQuantity id sampleCalls)) :=
  have hvalid : ∀ c ∈ sampleCalls, c.Valid := by
    intro c hc
    simp only [sampleCalls, List.mem_cons, List.mem_singleton, List.not_mem_nil,
      or_false] at hc
    rcases hc with rfl | rfl | rfl
    · exact ⟨⟨philadelphia, rfl⟩, by decide⟩
    · exact ⟨⟨california, rfl⟩, by decide⟩
    · exact ⟨⟨philadelphia, rfl⟩, by decide⟩
  ⟨⟨rfl, hvalid⟩, add_calls_unique_and_summed sampleCalls freshStorage rfl hvalid⟩

/-- When the dish is present, `mergeLine` rewrites the first line carrying it and
nothing else. -/
theorem mergeLine_of_present (dish : Dish) (quantity : Int) (cart : List CartItem)
    (hpresent : ∃ item ∈ cart, item.dishId = dish.id) :
    ∃ (i : Nat) (old : CartItem), cart[i]? = some old ∧ old.dishId = dish.id ∧
      (∀ j, j < i → ∀ x, cart[j]? = some x → x.dishId ≠ dish.id) ∧
      mergeLine dish quantity cart =
        cart.set i { old with quantity := old.quantity + quantity } := by
  induction cart with
  | nil => simp at hpresent
  | cons item rest ih =>
    by_cases h1 : item.dishId = dish.id
    · refine ⟨0, item, by simp, h1, ?_, ?_⟩
      · intro j hj; omega
      · simp [mergeLine, h1]
    · have h2 : ∃ x ∈ rest, x.dishId = dish.id := by
        obtain ⟨x, hx, hid⟩ := hpresent
        rcases List.mem_cons.mp hx with rfl | hx
        · exact absurd hid h1
        · exact ⟨x, hx, hid⟩
      obtain ⟨i, old, hget, hid, hfirst, heq⟩ := ih h2
      refine ⟨i + 1, old, by simpa using hget, hid, ?_, ?_⟩
      · intro j hj x hx
        cases j with
        | zero =>
          simp only [List.getElem?_cons_zero, Option.some.injEq] at hx
          subst hx
          exact h1
        | succ j =>
          simp only [List.getElem?_cons_succ] at hx
          exact hfirst j (by omega) x hx
      · simp [mergeLine, h1, heq]

/-- C2. Increment keeps the snapshot: when the stored cart already holds a line
with the dish's identifier, a valid add of that dish (through any of the three
entry points, whatever name, price or image the dish record now has) yields a cart
of the same length in which the first such line has its quantity raised by the
added amount and its dishId, name, price and image unchanged, and every other
position holds the line it held before. -/
theorem increment_keeps_snapshot (c : AddCall) (dish : Dish) (ls : LocalStorage)
    (hdish : c.dish = some dish) (hq : 1 ≤ c.quantity)
    (hpresent : ∃ item ∈ getCart ls, item.dishId = dish.id) :
    ∃ (i : Nat) (old new : CartItem),
      (getCart ls)[i]? = some old ∧ old.dishId = dish.id ∧
      (∀ j, j < i → ∀ x, (getCart ls)[j]? = some x → x.dishId ≠ dish.id) ∧
      (getCart (c.run ls)).length = (getCart ls).length ∧
      (getCart (c.run ls))[i]? = some new ∧
      new.quantity = old.quantity + c.quantity ∧
      new.dishId = old.dishId ∧ new.name = old.name ∧ new.price = old.price ∧
      new.image = old.image ∧
      (∀ j, j ≠ i → (getCart (c.run ls))[j]? = (getCart ls)[j]?) := by
  obtain ⟨i, old, hget, hid, hfirst, heq⟩ :=
    mergeLine_of_present dish c.quantity (getCart ls) hpresent
  have hrun := AddCall.getCart_run c dish ls hdish hq
  have hlt : i < (getCart ls).length := by
    rcases Nat.lt_or_ge i (getCart ls).length with h | h
    · exact h
    · rw [List.getElem?_eq_none h] at hget
      exact absurd hget (by simp)
  refine ⟨i, old, { old with quantity := old.quantity + c.quantity }, hget, hid, hfirst,
    ?_, ?_, rfl, rfl, rfl, rfl, rfl, ?_⟩
  · rw [hrun, heq, List.length_set]
  · rw [hrun, heq, List.getElem?_set_self hlt]
  · intro j hj
    rw [hrun, heq, List.getElem?_set_ne (Ne.symm hj)]

/-- A valid instance of C2: a cart holding the first dish at another price, to
which two more portions are added from the menu card. -/
theorem increment_keeps_snapshot_witness :
    ((AddCall.fromCard philadelphia 2).dish = some philadelphia ∧
      1 ≤ (AddCall.fromCard philadelphia 2).quantity ∧
      ∃ item ∈ getCart (storedCart [lineFor california 1,
          { lineFor philadelphia 4 with price := 400 }]),
        item.dishId = philadelphia.id) ∧
    ∃ (i : Nat) (old new : CartItem),
      (getCart (storedCart [lineFor california 1,
          { lineFor philadelphia 4 with price := 400 }]))[i]? = some old ∧
      old.dishId = philadelphia.id ∧
      (∀ j, j < i → ∀ x, (getCart (storedCart [lineFor california 1,
          { lineFor philadelphia 4 with price := 400 }]))[j]? = some x →
        x.dishId ≠ philadelphia.id) ∧
      (getCart ((AddCall.fromCard philadelphia 2).run (storedCart [lineFor california 1,
          { lineFor philadelphia 4 with price := 400 }]))).length =
        (getCart (storedCart [lineFor california 1,
          { lineFor philadelphia 4 with price := 400 }])).length ∧
      (getCart ((AddCall.fromCard philadelphia 2).run (storedCart [lineFor california 1,
          { lineFor philadelphia 4 with price := 400 }])))[i]? = some new ∧
      new.quantity = old.quantity + (AddCall.fromCard philadelphia 2).quantity ∧
      new.dishId = old.dishId ∧ new.name = old.name ∧ new.price = old.price ∧
      new.image = old.image ∧
      (∀ j, j ≠ i →
        (getCart ((AddCall.fromCard philadelphia 2).run (storedCart [lineFor california 1,
          { lineFor philadelphia 4 with price := 400 }])))[j]? =
        (getCart (storedCart [lineFor california 1,
          { lineFor philadelphia 4 with price := 400 }]))[j]?) :=
  have hpresent : ∃ item ∈ getCart (storedCart [lineFor california 1,
      { lineFor philadelphia 4 with price := 400 }]), item.dishId = philadelphia.id :=
    ⟨{ lineFor philadelphia 4 with price := 400 }, by simp [getCart, storedCart], rfl⟩
  ⟨⟨rfl, by decide, hpresent⟩,
    increment_keeps_snapshot (AddCall.fromCard philadelphia 2) philadelphia
      (storedCart [lineFor california 1, { lineFor philadelphia 4 with price := 400 }])
      rfl (by decide) hpresent⟩

/-- C3. Append on first add: when the stored cart holds no line with the dish's
identifier, a valid add (through any of the three entry points) yields exactly the
old cart followed by one new last line carrying the dish's id, name, price and
image and the added quantity; every earlier position holds the line it held. -/
theorem append_on_first_add (c : AddCall) (dish : Dish) (ls : LocalStorage)
    (hdish : c.dish = some dish) (hq : 1 ≤ c.quantity)
    (habsent : ∀ item ∈ getCart ls, item.dishId ≠ dish.id) :
    getCart (c.run ls) =
      getCart ls ++ [{ dishId := dish.id, name := dish.name, price := dish.price,
                       quantity := c.quantity, image := dish.image }] ∧
    (getCart (c.run ls)).length = (getCart ls).length + 1 ∧
    (∀ j, j < (getCart ls).length → (getCart (c.run ls))[j]? = (getCart ls)[j]?) := by
  have hrun := AddCall.getCart_run c dish ls hdish hq
  have heq := mergeLine_of_absent dish c.quantity (getCart ls) habsent
  refine ⟨hrun.trans heq, ?_, ?_⟩
  · rw [hrun, heq]; simp
  · intro j hj
    rw [hrun, heq, List.getElem?_append_left hj]

/-- A valid instance of C3: the second dish added from its dish page to a cart
that holds only the first. -/
theorem append_on_first_add_witness :
    ((AddCall.fromDishPage (some california) 3).dish = some california ∧
      1 ≤ (AddCall.fromDishPage (some california) 3).quantity ∧
      ∀ item ∈ getCart (storedCart [lineFor philadelphia 2]),
        item.dishId ≠ california.id) ∧
    getCart ((AddCall.fromDishPage (some california) 3).run
        (storedCart [lineFor philadelphia 2])) =
      getCart (storedCart [lineFor philadelphia 2]) ++
        [{ dishId := california.id, name := california.name, price := california.price,
           quantity := (AddCall.fromDishPage (some california) 3).quantity,
           image := california.image }] :=
  have habsent : ∀ item ∈ getCart (storedCart [lineFor philadelphia 2]),
      item.dishId ≠ california.id := by
    intro item hitem
    simp only [getCart, storedCart, List.mem_singleton] at hitem
    subst hitem
    decide
  ⟨⟨rfl, by decide, habsent⟩,
    (append_on_first_add (AddCall.fromDishPage (some california) 3) california
      (storedCart [lineFor philadelphia 2]) rfl (by decide) habsent).1⟩

/-- C4. `calculateSubtotal` returns the sum over the stored lines of price times
quantity and hands the page state on unchanged (stored cart, stored and in-memory
promo code); the sum is 0 for an absent and for an empty cart, and 900 for a cart
of one line with price 450 and quantity 2. -/
theorem calculateSubtotal_sum :
    (∀ s : CartPage,
      (calculateSubtotal s).1 =
        ((getCart s.storage).map (fun item => item.price * (item.quantity : ℚ))).sum ∧
      (calculateSubtotal s).2 = s) ∧
    (∀ (promocodes : List Promocode) (applied stored : Option Promocode),
      (calculateSubtotal ⟨promocodes, applied, ⟨none, stored⟩⟩).1 = 0 ∧
      (calculateSubtotal ⟨promocodes, applied, ⟨some [], stored⟩⟩).1 = 0) ∧
    (∀ (promocodes : List Promocode) (applied stored : Option Promocode)
        (dishId : Nat) (name image : String),
      (calculateSubtotal ⟨promocodes, applied,
        ⟨some [{ dishId := dishId, name := name, price := 450, quantity := 2,
                 image := image }], stored⟩⟩).1 = 900) := by
  refine ⟨?_, ?_, ?_⟩
  · intro s
    refine ⟨?_, rfl⟩
    unfold calculateSubtotal
    simp only [foldl_add_eq_sum, zero_add]
  · intro promocodes applied stored
    constructor <;> simp [calculateSubtotal, getCart]
  · intro promocodes applied stored dishId name image
    simp [calculateSubtotal, getCart]
    norm_num

/-- C5. Discount computation: on a non-empty cart with subtotal `S`, `displayCart`
and `checkout` both compute the discount `S * D / 100` (no rounding) when a promo
code with percentage `D` is applied and `0` when none is, and the total `S` minus
that discount; on an empty cart both return before computing totals. For the cart
of two lines (450 x 2, 380 x 1) with `D = 15` the figures are 1280, 192 and 1088. -/
theorem discount_computation :
    (∀ s : CartPage, getCart s.storage ≠ [] →
      (∀ promocode, s.appliedPromocode = some promocode →
        displayCart s = CartView.lines (getCart s.storage)
          { subtotal := (calculateSubtotal s).1,
            discount := (calculateSubtotal s).1 * (promocode.discount : ℚ) / 100,
            total := (calculateSubtotal s).1 -
              (calculateSubtotal s).1 * (promocode.discount : ℚ) / 100 } ∧
        ∃ n, (checkout s).1 = CheckoutReport.ordered n
          { subtotal := (calculateSubtotal s).1,
            discount := (calculateSubtotal s).1 * (promocode.discount : ℚ) / 100,
            total := (calculateSubtotal s).1 -
              (calculateSubtotal s).1 * (promocode.discount : ℚ) / 100 }) ∧
      (s.appliedPromocode = none →
        displayCart s = CartView.lines (getCart s.storage)
          { subtotal := (calculateSubtotal s).1, discount := 0,
            total := (calculateSubtotal s).1 } ∧
        ∃ n, (checkout s).1 = CheckoutReport.ordered n
          { subtotal := (calculateSubtotal s).1, discount := 0,
            total := (calculateSubtotal s).1 })) ∧
    (∀ s : CartPage, getCart s.storage = [] →
      displayCart s = CartView.emptyCart ∧ (checkout s).1 = CheckoutReport.emptyCart) ∧
    (∀ (promocodes : List Promocode) (code : String) (stored : Option Promocode)
        (id₁ id₂ : Nat) (name₁ image₁ name₂ image₂ : String),
      displayCart ⟨promocodes, some { code := code, discount := 15 },
          ⟨some [{ dishId := id₁, name := name₁, price := 450, quantity := 2,
                   image := image₁ },
                 { dishId := id₂, name := name₂, price := 380, quantity := 1,
                   image := image₂ }], stored⟩⟩ =
        CartView.lines
          [{ dishId := id₁, name := name₁, price := 450, quantity := 2, image := image₁ },
           { dishId := id₂, name := name₂, price := 380, quantity := 1, image := image₂ }]
          { subtotal := 1280, discount := 192, total := 1088 } ∧
      (checkout ⟨promocodes, some { code := code, discount := 15 },
          ⟨some [{ dishId := id₁, name := name₁, price := 450, quantity := 2,
                   image := image₁ },
                 { dishId := id₂, name := name₂, price := 380, quantity := 1,
                   image := image₂ }], stored⟩⟩).1 =
        CheckoutReport.ordered 3 { subtotal := 1280, discount := 192, total := 1088 }) := by
  refine ⟨?_, ?_, ?_⟩
  · intro s hne
    have hlen : ¬ ((getCart s.storage).length = 0) := by
      intro h
      exact hne (List.length_eq_zero.mp h)
    refine ⟨?_, ?_⟩
    · intro promocode happlied
      refine ⟨?_, ⟨(getCart s.storage).foldl (fun sum item => sum + item.quantity) 0, ?_⟩⟩
      · simp only [displayCart, hlen, if_false, happlied]
      · simp only [checkout, hlen, if_false, happlied]
    · intro happlied
      refine ⟨?_, ⟨(getCart s.storage).foldl (fun sum item => sum + item.quantity) 0, ?_⟩⟩
      · simp only [displayCart, hlen, if_false, happlied, sub_zero]
      · simp only [checkout, hlen, if_false, happlied, sub_zero]
  · intro s hempty
    simp [displayCart, checkout, hempty]
  · intro promocodes code stored id₁ id₂ name₁ image₁ name₂ image₂
    constructor
    · simp [displayCart, calculateSubtotal, getCart]
      norm_num
    · simp [checkout, calculateSubtotal, getCart]
      norm_num

/-- An instance of C5: the sample cart page, whose cart is not empty and whose
promo code gives 15 %. -/
theorem discount_computation_witness :
    getCart sampleCartPage.storage ≠ [] ∧
    sampleCartPage.appliedPromocode = some { code := "SAKURA15", discount := 15 } ∧
    displayCart sampleCartPage = CartView.lines (getCart sampleCartPage.storage)
      { subtotal := (calculateSubtotal sampleCartPage).1,
        discount := (calculateSubtotal sampleCartPage).1 * ((15 : Int) : ℚ) / 100,
        total := (calculateSubtotal sampleCartPage).1 -
          (calculateSubtotal sampleCartPage).1 * ((15 : Int) : ℚ) / 100 } :=
  have hne : getCart sampleCartPage.storage ≠ [] := by decide
  ⟨hne, rfl, ((discount_computation.1 sampleCartPage hne).1
    { code := "SAKURA15", discount := 15 } rfl).1⟩

/-- C6. Removal correctness: for a valid index `i` whose line has quantity plus
`change` at most zero, `updateCartQuantity(i, change)` succeeds and stores a cart
that is one line shorter, whose positions before `i` are unchanged and whose
position `j ≥ i` holds the old line of position `j + 1`. -/
theorem updateCartQuantity_removes_line (s : CartPage) (i : Nat) (change : Int)
    (item : CartItem) (hget : (getCart s.storage)[i]? = some item)
    (hle : item.quantity + change ≤ 0) :
    (updateCartQuantity (i : Int) change s).1 = Outcome.ok ∧
    (getCart (updateCartQuantity (i : Int) change s).2.storage).length + 1 =
      (getCart s.storage).length ∧
    (∀ j, j < i →
      (getCart (updateCartQuantity (i : Int) change s).2.storage)[j]? =
        (getCart s.storage)[j]?) ∧
    (∀ j, i ≤ j →
      (getCart (updateCartQuantity (i : Int) change s).2.storage)[j]? =
        (getCart s.storage)[j + 1]?) := by
  have hlt := lt_length_of_getElem?_eq_some _ _ _ hget
  rw [updateCartQuantity_remove s i change item hget hle]
  simp only [getCart_setCart]
  refine ⟨trivial, ?_, ?_, ?_⟩
  · rw [List.length_eraseIdx_of_lt hlt]
    omega
  · intro j hj
    exact List.getElem?_eraseIdx_of_lt _ _ _ hj
  · intro j hj
    exact List.getElem?_eraseIdx_of_ge _ _ _ hj

/-- A valid instance of C6: the single portion of the second line of the sample
cart is taken away. -/
theorem updateCartQuantity_removes_line_witness :
    ((getCart sampleCartPage.storage)[1]? =
        some { dishId := 2, name := "Калифорния", price := 380, quantity := 1, image := "" } ∧
      (1 : Int) + (-1) ≤ 0) ∧
    (getCart (updateCartQuantity ((1 : Nat) : Int) (-1) sampleCartPage).2.storage).length + 1 =
      (getCart sampleCartPage.storage).length :=
  ⟨⟨rfl, by decide⟩,
    (updateCartQuantity_removes_line sampleCartPage 1 (-1)
      { dishId := 2, name := "Калифорния", price := 380, quantity := 1, image := "" }
      rfl (by decide)).2.1⟩

/-- C7. For a valid index `i` whose line has quantity plus `change` at least one,
`updateCartQuantity(i, change)` succeeds and stores a cart of the same length in
which the line at `i` has its quantity raised by `change` and its dishId, name,
price and image unchanged, and every other position holds the line it held. -/
theorem updateCartQuantity_adjusts_line (s : CartPage) (i : Nat) (change : Int)
    (item : CartItem) (hget : (getCart s.storage)[i]? = some item)
    (hge : 1 ≤ item.quantity + change) :
    (updateCartQuantity (i : Int) change s).1 = Outcome.ok ∧
    (getCart (updateCartQuantity (i : Int) change s).2.storage).length =
      (getCart s.storage).length ∧
    (∃ new, (getCart (updateCartQuantity (i : Int) change s).2.storage)[i]? = some new ∧
      new.quantity = item.quantity + change ∧ new.dishId = item.dishId ∧
      new.name = item.name ∧ new.price = item.price ∧ new.image = item.image) ∧
    (∀ j, j ≠ i →
      (getCart (updateCartQuantity (i : Int) change s).2.storage)[j]? =
        (getCart s.storage)[j]?) := by
  have hlt := lt_length_of_getElem?_eq_some _ _ _ hget
  rw [updateCartQuantity_keep s i change item hget hge]
  simp only [getCart_setCart]
  refine ⟨trivial, List.length_set _ _ _, ?_, ?_⟩
  · exact ⟨{ item with quantity := item.quantity + change },
      List.getElem?_set_self hlt, rfl, rfl, rfl, rfl, rfl⟩
  · intro j hj
    exact List.getElem?_set_ne (Ne.symm hj)

/-- A valid instance of C7: one of the two portions of the first line of the
sample cart is taken away. -/
theorem updateCartQuantity_adjusts_line_witness :
    ((getCart sampleCartPage.storage)[0]? =
        some { dishId := 1, name := "Филадельфия", price := 450, quantity := 2, image := "" } ∧
      (1 : Int) ≤ 2 + (-1)) ∧
    (getCart (updateCartQuantity ((0 : Nat) : Int) (-1) sampleCartPage).2.storage).length =
      (getCart sampleCartPage.storage).length :=
  ⟨⟨rfl, by decide⟩,
    (updateCartQuantity_adjusts_line sampleCartPage 0 (-1)
      { dishId := 1, name := "Филадельфия", price := 450, quantity := 2, image := "" }
      rfl (by decide)).2.1⟩

/-- C9. For every valid index `i`, `removeFromCart(i)` succeeds and stores the
cart with exactly the line at `i` removed, whatever its quantity: the length
drops by one, positions before `i` are unchanged and position `j ≥ i` holds the
old line of position `j + 1`. -/
theorem removeFromCart_removes_line (s : CartPage) (i : Nat)
    (hlt : i < (getCart s.storage).length) :
    (removeFromCart (i : Int) s).1 = Outcome.ok ∧
    (getCart (removeFromCart (i : Int) s).2.storage).length + 1 =
      (getCart s.storage).length ∧
    (∀ j, j < i →
      (getCart (removeFromCart (i : Int) s).2.storage)[j]? = (getCart s.storage)[j]?) ∧
    (∀ j, i ≤ j →
      (getCart (removeFromCart (i : Int) s).2.storage)[j]? =
        (getCart s.storage)[j + 1]?) := by
  rw [removeFromCart_valid s i hlt]
  simp only [getCart_setCart]
  refine ⟨trivial, ?_, ?_, ?_⟩
  · rw [List.length_eraseIdx_of_lt hlt]
    omega
  · intro j hj
    exact List.getElem?_eraseIdx_of_lt _ _ _ hj
  · intro j hj
    exact List.getElem?_eraseIdx_of_ge _ _ _ hj

/-- A valid instance of C9: the first line of the sample cart, of quantity two,
is removed and the second line moves to position 0. -/
theorem removeFromCart_removes_line_witness :
    0 < (getCart sampleCartPage.storage).length ∧
    (getCart (removeFromCart ((0 : Nat) : Int) sampleCartPage).2.storage)[0]? =
      (getCart sampleCartPage.storage)[0 + 1]? :=
  ⟨by decide,
    (removeFromCart_removes_line sampleCartPage 0 (by decide)).2.2.2 0 (Nat.le_refl 0)⟩

/-- C10. For every index out of bounds (negative, or at least the length) and
every `change`, `updateCartQuantity(index, change)` fails: reading `quantity` of
the `undefined` element throws before anything is stored, so the page state, and
with it the stored cart, is what it was. -/
theorem updateCartQuantity_out_of_bounds (s : CartPage) (index change : Int)
    (hout : index < 0 ∨ ((getCart s.storage).length : Int) ≤ index) :
    (updateCartQuantity index change s).1 = Outcome.typeError ∧
    (updateCartQuantity index change s).2 = s ∧
    getCart (updateCartQuantity index change s).2.storage = getCart s.storage := by
  have hnone := getAt_out_of_bounds (getCart s.storage) index hout
  unfold updateCartQuantity
  simp only [hnone, and_self]

/-- A valid instance of C10: index 2 on the sample cart of two lines. -/
theorem updateCartQuantity_out_of_bounds_witness :
    ((2 : Int) < 0 ∨ ((getCart sampleCartPage.storage).length : Int) ≤ 2) ∧
    (updateCartQuantity 2 1 sampleCartPage).1 = Outcome.typeError ∧
    (updateCartQuantity 2 1 sampleCartPage).2 = sampleCartPage ∧
    getCart (updateCartQuantity 2 1 sampleCartPage).2.storage =
      getCart sampleCartPage.storage :=
  ⟨Or.inr (by decide), updateCartQuantity_out_of_bounds sampleCartPage 2 1 (Or.inr (by decide))⟩

theorem quantitiesPositive_mergeLine (dish : Dish) (quantity : Int)
    (cart : List CartItem) (hcart : QuantitiesPositive cart) (hq : 1 ≤ quantity) :
    QuantitiesPositive (mergeLine dish quantity cart) := by
  induction cart with
  | nil =>
    intro item hitem
    simp only [mergeLine, List.mem_singleton] at hitem
    subst hitem
    exact hq
  | cons x rest ih =>
    have hx : 1 ≤ x.quantity := hcart x (List.mem_cons_self _ _)
    have hrest : QuantitiesPositive rest := fun y hy => hcart y (List.mem_cons_of_mem _ hy)
    intro item hitem
    unfold mergeLine at hitem
    by_cases h1 : x.dishId = dish.id
    · rw [if_pos h1] at hitem
      rcases List.mem_cons.mp hitem with rfl | hmem
      · show 1 ≤ x.quantity + quantity
        omega
      · exact hrest item hmem
    · rw [if_neg h1] at hitem
      rcases List.mem_cons.mp hitem with rfl | hmem
      · exact hx
      · exact ih hrest item hmem

theorem quantitiesPositive_eraseIdx (cart : List CartItem) (i : Nat)
    (hcart : QuantitiesPositive cart) : QuantitiesPositive (cart.eraseIdx i) :=
  fun item hitem => hcart item (List.mem_of_mem_eraseIdx hitem)

/-- A single valid operation keeps every quantity at least one. -/
theorem LedgerOp.run_quantitiesPositive (s : CartPage) (op : LedgerOp)
    (hcart : QuantitiesPositive (getCart s.storage)) (hvalid : op.Valid s) :
    QuantitiesPositive (getCart (op.run s).storage) := by
  cases op with
  | add call =>
    obtain ⟨⟨dish, hdish⟩, hq⟩ := hvalid
    show QuantitiesPositive (getCart (call.run s.storage))
    rw [AddCall.getCart_run call dish s.storage hdish hq]
    exact quantitiesPositive_mergeLine dish call.quantity _ hcart hq
  | adjustQuantity index change =>
    obtain ⟨h0, hlt⟩ := hvalid
    obtain ⟨i, rfl⟩ := Int.eq_ofNat_of_zero_le h0
    have hlt' : i < (getCart s.storage).length := by omega
    have hget : (getCart s.storage)[i]? = some ((getCart s.storage)[i]) :=
      List.getElem?_eq_getElem hlt'
    show QuantitiesPositive (getCart (updateCartQuantity (i : Int) change s).2.storage)
    by_cases hle : ((getCart s.storage)[i]).quantity + change ≤ 0
    · rw [updateCartQuantity_remove s i change _ hget hle]
      exact quantitiesPositive_eraseIdx _ _ hcart
    · have hge : 1 ≤ ((getCart s.storage)[i]).quantity + change := by omega
      rw [updateCartQuantity_keep s i change _ hget hge]
      intro item hitem
      rcases List.mem_or_eq_of_mem_set hitem with hmem | rfl
      · exact hcart item hmem
      · exact hge
  | removeLine index =>
    obtain ⟨h0, hlt⟩ := hvalid
    obtain ⟨i, rfl⟩ := Int.eq_ofNat_of_zero_le h0
    have hlt' : i < (getCart s.storage).length := by omega
    show QuantitiesPositive (getCart (removeFromCart (i : Int) s).2.storage)
    rw [removeFromCart_valid s i hlt']
    exact quantitiesPositive_eraseIdx _ _ hcart
  | checkOut =>
    show QuantitiesPositive (getCart (checkout s).2.storage)
    unfold checkout
    by_cases hlen : (getCart s.storage).length = 0
    · simpa only [hlen, if_true] using hcart
    · simp only [hlen, if_false]
      intro item hitem
      simp [getCart] at hitem

/-- C8. Quantity invariant: if every line of the stored cart has quantity at
least one, then so has every line after any single valid ledger operation (an add
with quantity at least one through any of the three entry points,
`updateCartQuantity` with a valid index and any change, `removeFromCart` with a
valid index, `checkout`); hence every cart reached from an empty cart by such
operations has only lines of quantity at least one. -/
theorem quantity_invariant :
    (∀ (s : CartPage) (op : LedgerOp), QuantitiesPositive (getCart s.storage) →
      op.Valid s → QuantitiesPositive (getCart (op.run s).storage)) ∧
    (∀ s : CartPage, Reachable s → ∀ item ∈ getCart s.storage, ¬ item.quantity ≤ 0) := by
  refine ⟨LedgerOp.run_quantitiesPositive, ?_⟩
  intro s hreach
  have hpos : QuantitiesPositive (getCart s.storage) := by
    induction hreach with
    | start s hempty =>
      intro item hitem
      rw [hempty] at hitem
      simp at hitem
    | step s op _ hvalid ih => exact LedgerOp.run_quantitiesPositive s op ih hvalid
  intro item hitem
  have := hpos item hitem
  omega

/-- An instance of C8: taking the single portion of the second line away from
the sample cart, whose quantities are two and one. -/
theorem quantity_invariant_witness :
    (QuantitiesPositive (getCart sampleCartPage.storage) ∧
      (LedgerOp.adjustQuantity 1 (-1)).Valid sampleCartPage) ∧
    QuantitiesPositive (getCart ((LedgerOp.adjustQuantity 1 (-1)).run sampleCartPage).storage) :=
  have hpos : QuantitiesPositive (getCart sampleCartPage.storage) := by
    intro item hitem
    simp only [getCart, sampleCartPage, List.mem_cons, List.mem_singleton,
      List.not_mem_nil, or_false] at hitem
    rcases hitem with rfl | rfl <;> decide
  have hvalid : (LedgerOp.adjustQuantity 1 (-1)).Valid sampleCartPage :=
    ⟨by decide, by decide⟩
  ⟨⟨hpos, hvalid⟩, quantity_invariant.1 sampleCartPage (LedgerOp.adjustQuantity 1 (-1)) hpos hvalid⟩

theorem splice_one_of_ge {α : Type} (xs : List α) (start : Int)
    (hge : (xs.length : Int) ≤ start) : splice xs start 1 = xs := by
  unfold splice
  have hneg : ¬ (start < 0) := by omega
  have h1 : min start.toNat xs.length = xs.length := by omega
  simp only [hneg, if_false, h1, Nat.sub_self, Nat.min_zero, Nat.add_zero,
    List.take_length, List.drop_length, List.append_nil]

theorem splice_one_of_neg {α : Type} (xs : List α) (start : Int) (hneg : start < 0) :
    splice xs start 1 = xs.eraseIdx ((xs.length : Int) + start).toNat := by
  unfold splice
  simp only [hneg, if_true]
  rcases Nat.eq_zero_or_pos xs.length with hlen | hlen
  · have hnil : xs = [] := List.length_eq_zero.mp hlen
    subst hnil
    simp
  · have hlt : ((xs.length : Int) + start).toNat < xs.length := by omega
    have h2 : min 1 (xs.length - ((xs.length : Int) + start).toNat) = 1 := by omega
    rw [h2, List.eraseIdx_eq_take_drop_succ]

/-- C11, as the code has it. `removeFromCart` never fails on an index out of
bounds: it completes and stores the cart. With an index at or past the length no
line is removed; with a negative index `splice` counts from the end, so the line
at position `length + index` (position 0 when that is negative) is removed. -/
theorem removeFromCart_out_of_bounds (s : CartPage) (index : Int) :
    (removeFromCart index s).1 = Outcome.ok ∧
    (((getCart s.storage).length : Int) ≤ index →
      getCart (removeFromCart index s).2.storage = getCart s.storage) ∧
    (index < 0 →
      getCart (removeFromCart index s).2.storage =
        (getCart s.storage).eraseIdx (((getCart s.storage).length : Int) + index).toNat) := by
  refine ⟨rfl, ?_, ?_⟩
  · intro hge
    unfold removeFromCart
    simp only [getCart_setCart, splice_one_of_ge _ _ hge]
  · intro hneg
    unfold removeFromCart
    simp only [getCart_setCart, splice_one_of_neg _ _ hneg]

/-- An instance of the amended C11: index 2 on the sample cart of two lines. -/
theorem removeFromCart_out_of_bounds_witness :
    ((getCart sampleCartPage.storage).length : Int) ≤ 2 ∧
    (removeFromCart 2 sampleCartPage).1 = Outcome.ok ∧
    getCart (removeFromCart 2 sampleCartPage).2.storage = getCart sampleCartPage.storage :=
  ⟨by decide, (removeFromCart_out_of_bounds sampleCartPage 2).1,
    (removeFromCart_out_of_bounds sampleCartPage 2).2.1 (by decide)⟩

/-- C11 fails as stated: on the sample cart of two lines, `removeFromCart(2)` and
`removeFromCart(-1)` both complete without an error, and `removeFromCart(-1)`
removes the last line. -/
theorem removeFromCart_out_of_bounds_counterexample :
    (((getCart sampleCartPage.storage).length : Int) ≤ 2 ∧
      (removeFromCart 2 sampleCartPage).1 ≠ Outcome.typeError) ∧
    ((-1 : Int) < 0 ∧
      (removeFromCart (-1) sampleCartPage).1 ≠ Outcome.typeError ∧
      getCart (removeFromCart (-1) sampleCartPage).2.storage =
        [{ dishId := 1, name := "Филадельфия", price := 450, quantity := 2, image := "" }] ∧
      getCart (removeFromCart (-1) sampleCartPage).2.storage ≠
        getCart sampleCartPage.storage) := by
  decide

/-! ### Promo codes -/

theorem applyPromocode_of_empty (unicodeUpper : Char → List Char) (input : String) (s : CartPage)
    (hempty : toUpperCase unicodeUpper (trim input) = "") :
    applyPromocode unicodeUpper input s = (PromoOutcome.invalidInput, s) := by
  unfold applyPromocode
  simp only [hempty, if_true]

theorem applyPromocode_of_found (unicodeUpper : Char → List Char)
    (input : String) (s : CartPage) (pc : Promocode)
    (hne : toUpperCase unicodeUpper (trim input) ≠ "")
    (hfind : find (fun pc => decide (pc.code = toUpperCase unicodeUpper (trim input))) s.promocodes
      = some pc) :
    applyPromocode unicodeUpper input s =
      (PromoOutcome.applied (toUpperCase unicodeUpper (trim input)) pc.discount,
        { s with appliedPromocode := some pc,
                 storage := { s.storage with appliedPromocode := some pc } }) := by
  unfold applyPromocode
  simp only [hne, if_false, hfind]

theorem applyPromocode_of_not_found (unicodeUpper : Char → List Char)
    (input : String) (s : CartPage)
    (hne : toUpperCase unicodeUpper (trim input) ≠ "")
    (hfind : find (fun pc => decide (pc.code = toUpperCase unicodeUpper (trim input))) s.promocodes
      = none) :
    applyPromocode unicodeUpper input s = (PromoOutcome.notFound, s) := by
  unfold applyPromocode
  simp only [hne, if_false, hfind]

/-- The lookup finds nothing exactly when no entry carries the code. -/
theorem find_code_eq_none_iff (code : String) (promocodes : List Promocode) :
    find (fun pc => decide (pc.code = code)) promocodes = none ↔
      ∀ pc ∈ promocodes, pc.code ≠ code := by
  unfold find
  simp

/-- The lookup returns the first entry that carries the code. -/
theorem find_code_eq_some_iff (code : String) (promocodes : List Promocode)
    (pc : Promocode) :
    find (fun pc => decide (pc.code = code)) promocodes = some pc ↔
      pc.code = code ∧ ∃ before after, promocodes = before ++ pc :: after ∧
        ∀ q ∈ before, q.code ≠ code := by
  unfold find
  rw [List.find?_eq_some]
  simp

/-- Success of `applyPromocode` in terms of the normalised code. -/
theorem applyPromocode_succeeded_iff (unicodeUpper : Char → List Char)
    (input : String) (s : CartPage) :
    (applyPromocode unicodeUpper input s).1.succeeded = true ↔
      toUpperCase unicodeUpper (trim input) ≠ "" ∧
        ∃ pc ∈ s.promocodes, pc.code = toUpperCase unicodeUpper (trim input) := by
  by_cases hempty : toUpperCase unicodeUpper (trim input) = ""
  · rw [applyPromocode_of_empty unicodeUpper input s hempty]
    simp [PromoOutcome.succeeded, hempty]
  · cases hfind : find (fun pc => decide (pc.code = toUpperCase unicodeUpper (trim input))) s.promocodes with
    | none =>
      rw [applyPromocode_of_not_found unicodeUpper input s hempty hfind]
      have hno := (find_code_eq_none_iff _ _).mp hfind
      constructor
      · intro h
        exact absurd h (by simp [PromoOutcome.succeeded])
      · rintro ⟨_, pc, hmem, hcode⟩
        exact absurd hcode (hno pc hmem)
    | some pc =>
      rw [applyPromocode_of_found unicodeUpper input s pc hempty hfind]
      have hsome := (find_code_eq_some_iff _ _ _).mp hfind
      obtain ⟨hcode, before, after, hsplit, _⟩ := hsome
      simp only [PromoOutcome.succeeded, true_iff]
      exact ⟨hempty, pc, by rw [hsplit]; simp, hcode⟩

/-- On success the applied and the stored promo code are the first registry entry
that carries the normalised code. -/
theorem applyPromocode_succeeded_first (unicodeUpper : Char → List Char)
    (input : String) (s : CartPage)
    (hsucc : (applyPromocode unicodeUpper input s).1.succeeded = true) :
    ∃ pc before after, s.promocodes = before ++ pc :: after ∧
      pc.code = toUpperCase unicodeUpper (trim input) ∧
      (∀ q ∈ before, q.code ≠ toUpperCase unicodeUpper (trim input)) ∧
      (applyPromocode unicodeUpper input s).2.appliedPromocode = some pc ∧
      (applyPromocode unicodeUpper input s).2.storage.appliedPromocode = some pc := by
  by_cases hempty : toUpperCase unicodeUpper (trim input) = ""
  · rw [applyPromocode_of_empty unicodeUpper input s hempty] at hsucc
    exact absurd hsucc (by simp [PromoOutcome.succeeded])
  · cases hfind : find (fun pc => decide (pc.code = toUpperCase unicodeUpper (trim input))) s.promocodes with
    | none =>
      rw [applyPromocode_of_not_found unicodeUpper input s hempty hfind] at hsucc
      exact absurd hsucc (by simp [PromoOutcome.succeeded])
    | some pc =>
      obtain ⟨hcode, before, after, hsplit, hfirst⟩ := (find_code_eq_some_iff _ _ _).mp hfind
      rw [applyPromocode_of_found unicodeUpper input s pc hempty hfind]
      exact ⟨pc, before, after, hsplit, hcode, hfirst, rfl, rfl⟩

/-- For an entry of an upper-case registry, matching the text with case ignored
is carrying its upper-cased form. -/
theorem equalsIgnoringCase_iff_of_upper (unicodeUpper : Char → List Char)
    (promocodes : List Promocode)
    (hupper : UpperCaseRegistry unicodeUpper promocodes) (text : String) (pc : Promocode)
    (hmem : pc ∈ promocodes) :
    equalsIgnoringCase unicodeUpper pc.code text ↔ pc.code = toUpperCase unicodeUpper text := by
  unfold equalsIgnoringCase
  rw [(hupper pc hmem).2]

/-- C12, as the code has it. `applyPromocode` succeeds exactly when the trimmed,
upper-cased input is non-empty and is, character for character, the code of some
registry entry; on success the applied (and stored) promo code is the first such
entry. For a registry whose codes are all non-empty and in upper case this is the
match of the trimmed input with letter case ignored. Both parts hold for every
case table `unicodeUpper`, so for the table of the platform. -/
theorem applyPromocode_lookup (unicodeUpper : Char → List Char) :
    (∀ (input : String) (s : CartPage),
      ((applyPromocode unicodeUpper input s).1.succeeded = true ↔
        toUpperCase unicodeUpper (trim input) ≠ "" ∧
          ∃ pc ∈ s.promocodes, pc.code = toUpperCase unicodeUpper (trim input)) ∧
      ((applyPromocode unicodeUpper input s).1.succeeded = true →
        ∃ pc before after, s.promocodes = before ++ pc :: after ∧
          pc.code = toUpperCase unicodeUpper (trim input) ∧
          (∀ q ∈ before, q.code ≠ toUpperCase unicodeUpper (trim input)) ∧
          (applyPromocode unicodeUpper input s).2.appliedPromocode = some pc ∧
          (applyPromocode unicodeUpper input s).2.storage.appliedPromocode = some pc)) ∧
    (∀ (input : String) (s : CartPage), UpperCaseRegistry unicodeUpper s.promocodes →
      ((applyPromocode unicodeUpper input s).1.succeeded = true ↔
        ∃ pc ∈ s.promocodes, equalsIgnoringCase unicodeUpper pc.code (trim input)) ∧
      ((applyPromocode unicodeUpper input s).1.succeeded = true →
        ∃ pc before after, s.promocodes = before ++ pc :: after ∧
          equalsIgnoringCase unicodeUpper pc.code (trim input) ∧
          (∀ q ∈ before, ¬ equalsIgnoringCase unicodeUpper q.code (trim input)) ∧
          (applyPromocode unicodeUpper input s).2.appliedPromocode = some pc ∧
          (applyPromocode unicodeUpper input s).2.storage.appliedPromocode = some pc)) := by
  refine ⟨fun input s =>
    ⟨applyPromocode_succeeded_iff unicodeUpper input s, applyPromocode_succeeded_first unicodeUpper input s⟩, ?_⟩
  intro input s hupper
  have hiff := equalsIgnoringCase_iff_of_upper unicodeUpper s.promocodes hupper (trim input)
  refine ⟨?_, ?_⟩
  · rw [applyPromocode_succeeded_iff unicodeUpper]
    constructor
    · rintro ⟨_, pc, hmem, hcode⟩
      exact ⟨pc, hmem, (hiff pc hmem).mpr hcode⟩
    · rintro ⟨pc, hmem, heq⟩
      have hcode := (hiff pc hmem).mp heq
      refine ⟨?_, pc, hmem, hcode⟩
      rw [← hcode]
      exact (hupper pc hmem).1
  · intro hsucc
    obtain ⟨pc, before, after, hsplit, hcode, hfirst, happlied, hstored⟩ :=
      applyPromocode_succeeded_first unicodeUpper input s hsucc
    have hmem : pc ∈ s.promocodes := by rw [hsplit]; simp
    refine ⟨pc, before, after, hsplit, (hiff pc hmem).mpr hcode, ?_, happlied, hstored⟩
    intro q hq heq
    have hqmem : q ∈ s.promocodes := by rw [hsplit]; simp [hq]
    exact hfirst q hq ((hiff q hqmem).mp heq)

/-- On a text of ASCII characters upper-casing does not consult the Unicode table:
it maps `a` to `z` to the capital letters and keeps the rest. -/
theorem flatMap_upperOf_of_ascii (unicodeUpper : Char → List Char) (chars : List Char)
    (hascii : ∀ c ∈ chars, c.toNat < 128) :
    chars.flatMap (upperOf unicodeUpper) = chars.map Char.toUpper := by
  induction chars with
  | nil => rfl
  | cons c rest ih =>
    have hc : c.toNat < 128 := hascii c (List.mem_cons_self _ _)
    have hrest := ih (fun x hx => hascii x (List.mem_cons_of_mem _ hx))
    simp only [List.flatMap_cons, List.map_cons, hrest, upperOf, hc, if_true,
      List.singleton_append]

theorem toUpperCase_of_ascii (unicodeUpper : Char → List Char) (text : String)
    (hascii : ∀ c ∈ text.data, c.toNat < 128) :
    toUpperCase unicodeUpper text = String.mk (text.data.map Char.toUpper) := by
  unfold toUpperCase
  rw [flatMap_upperOf_of_ascii unicodeUpper text.data hascii]

theorem upperCaseRegistry_promocodesData (unicodeUpper : Char → List Char) :
    UpperCaseRegistry unicodeUpper promocodesData := by
  intro pc hpc
  simp only [promocodesData, List.mem_cons, List.mem_singleton, List.not_mem_nil,
    or_false] at hpc
  rcases hpc with rfl | rfl | rfl
  · exact ⟨by decide, by rw [toUpperCase_of_ascii unicodeUpper _ (by decide)]; decide⟩
  · exact ⟨by decide, by rw [toUpperCase_of_ascii unicodeUpper _ (by decide)]; decide⟩
  · exact ⟨by decide, by rw [toUpperCase_of_ascii unicodeUpper _ (by decide)]; decide⟩

/-- An instance of the amended C12: the embedded registry and the input
`sushi20`. -/
theorem applyPromocode_lookup_witness :
    UpperCaseRegistry unicodeUpperExcerpt sampleCartPage.promocodes ∧
    ((applyPromocode unicodeUpperExcerpt "sushi20" sampleCartPage).1.succeeded = true ↔
      ∃ pc ∈ sampleCartPage.promocodes,
        equalsIgnoringCase unicodeUpperExcerpt pc.code (trim "sushi20")) :=
  ⟨upperCaseRegistry_promocodesData unicodeUpperExcerpt,
    ((applyPromocode_lookup unicodeUpperExcerpt).2 "sushi20" sampleCartPage
      (upperCaseRegistry_promocodesData unicodeUpperExcerpt)).1⟩

/-- C12 fails as stated: with the registry code `Sushi20` the input `sushi20`
equals the code when letter case is ignored, yet the call ends with the
not-found error and applies nothing. Both texts are ASCII, so no entry of the
Unicode table is consulted. -/
theorem applyPromocode_lookup_counterexample :
    (∃ pc ∈ mixedCaseRegistryPage.promocodes,
      equalsIgnoringCase unicodeUpperExcerpt pc.code (trim "sushi20")) ∧
    (applyPromocode unicodeUpperExcerpt "sushi20" mixedCaseRegistryPage).1 = PromoOutcome.notFound ∧
    (applyPromocode unicodeUpperExcerpt "sushi20" mixedCaseRegistryPage).1.succeeded = false ∧
    (applyPromocode unicodeUpperExcerpt "sushi20" mixedCaseRegistryPage).2.appliedPromocode = none :=
  ⟨⟨{ code := "Sushi20", discount := 20 }, by decide,
      by unfold equalsIgnoringCase; decide⟩,
    by decide, by decide, by decide⟩

theorem dropWhile_of_none {α : Type} (p : α → Bool) (xs : List α)
    (hnone : ∀ x ∈ xs, p x = false) : xs.dropWhile p = xs := by
  cases xs with
  | nil => rfl
  | cons x rest =>
    have hx : p x = false := hnone x (List.mem_cons_self _ _)
    simp [List.dropWhile, hx]

/-- Stripping white space from both ends of a padded text gives the text back. -/
theorem strip_padded (leading written trailing : List Char)
    (hlead : ∀ c ∈ leading, isWhiteSpace c = true)
    (htrail : ∀ c ∈ trailing, isWhiteSpace c = true)
    (hwritten : ∀ c ∈ written, isWhiteSpace c = false) :
    ((leading ++ written ++ trailing).dropWhile isWhiteSpace).rdropWhile isWhiteSpace
      = written := by
  cases written with
  | nil =>
    have hall : ∀ c ∈ leading ++ [] ++ trailing, isWhiteSpace c = true := by
      intro c hc
      simp only [List.append_nil, List.mem_append] at hc
      rcases hc with hc | hc
      · exact hlead c hc
      · exact htrail c hc
    rw [(List.dropWhile_eq_nil_iff).mpr hall]
    rfl
  | cons w rest =>
    have hw : isWhiteSpace w = false := hwritten w (List.mem_cons_self _ _)
    have h1 : (leading ++ (w :: rest) ++ trailing).dropWhile isWhiteSpace
        = (w :: rest) ++ trailing := by
      rw [List.append_assoc, List.dropWhile_append_of_pos hlead]
      simp [List.dropWhile, hw]
    rw [h1]
    unfold List.rdropWhile
    have htrail' : ∀ c ∈ trailing.reverse, isWhiteSpace c = true :=
      fun c hc => htrail c (List.mem_reverse.mp hc)
    have hwritten' : ∀ c ∈ (w :: rest).reverse, isWhiteSpace c = false :=
      fun c hc => hwritten c (List.mem_reverse.mp hc)
    rw [List.reverse_append, List.dropWhile_append_of_pos htrail',
      dropWhile_of_none _ _ hwritten', List.reverse_reverse]

theorem trim_padded (leading written trailing : String)
    (hlead : IsBlank leading) (htrail : IsBlank trailing)
    (hwritten : ∀ c ∈ written.data, isWhiteSpace c = false) :
    trim (leading ++ written ++ trailing) = written := by
  unfold trim
  simp only [String.data_append]
  rw [strip_padded _ _ _ hlead htrail hwritten]

theorem trim_of_blank (text : String) (hblank : IsBlank text) : trim text = "" := by
  unfold trim
  rw [(List.dropWhile_eq_nil_iff).mpr hblank]
  rfl

/-- A case variant of a text whose characters are fixed by upper-casing, also
after lower-casing, upper-cases to that text and holds no white space where the
text and its lower-case form hold none. -/
theorem caseVariant_spec (written code : List Char)
    (hvar : List.Forall₂ (fun w c => w = c ∨ w = Char.toLower c) written code)
    (hcode : ∀ c ∈ code, Char.toUpper c = c ∧ Char.toUpper (Char.toLower c) = c ∧
      isWhiteSpace c = false ∧ isWhiteSpace (Char.toLower c) = false) :
    written.map Char.toUpper = code ∧ ∀ w ∈ written, isWhiteSpace w = false := by
  induction hvar with
  | nil => simp
  | @cons w c ws cs hhead _ ih =>
    obtain ⟨h1, h2, h3, h4⟩ := hcode c (List.mem_cons_self _ _)
    obtain ⟨ihmap, ihws⟩ := ih (fun x hx => hcode x (List.mem_cons_of_mem _ hx))
    constructor
    · rw [List.map_cons, ihmap]
      rcases hhead with rfl | rfl
      · rw [h1]
      · rw [h2]
    · intro x hx
      rcases List.mem_cons.mp hx with rfl | hx
      · rcases hhead with rfl | rfl
        · exact h3
        · exact h4
      · exact ihws x hx

/-- A case variant of an ASCII text whose lower-case forms are ASCII is ASCII. -/
theorem caseVariant_ascii (written code : List Char)
    (hvar : List.Forall₂ (fun w c => w = c ∨ w = Char.toLower c) written code)
    (hcode : ∀ c ∈ code, c.toNat < 128 ∧ (Char.toLower c).toNat < 128) :
    ∀ w ∈ written, w.toNat < 128 := by
  induction hvar with
  | nil => intro w hw; simp at hw
  | @cons w c ws cs hhead _ ih =>
    obtain ⟨h1, h2⟩ := hcode c (List.mem_cons_self _ _)
    intro x hx
    rcases List.mem_cons.mp hx with rfl | hx
    · rcases hhead with rfl | rfl
      · exact h1
      · exact h2
    · exact ih (fun y hy => hcode y (List.mem_cons_of_mem _ hy)) x hx

/-- The characters of the embedded registry codes and their lower-case forms are
ASCII. -/
theorem promocodesData_ascii :
    ∀ pc ∈ promocodesData, ∀ c ∈ pc.code.data,
      c.toNat < 128 ∧ (Char.toLower c).toNat < 128 := by
  decide

/-- The characters of the embedded registry codes are upper-case letters and
digits: upper-casing fixes them, also after lower-casing, and neither form is
white space. -/
theorem promocodesData_chars :
    ∀ pc ∈ promocodesData, ∀ c ∈ pc.code.data,
      Char.toUpper c = c ∧ Char.toUpper (Char.toLower c) = c ∧
        isWhiteSpace c = false ∧ isWhiteSpace (Char.toLower c) = false := by
  decide

/-- Each embedded registry code is non-empty and is found as its own entry. -/
theorem promocodesData_find :
    ∀ pc ∈ promocodesData,
      pc.code ≠ "" ∧ find (fun q => decide (q.code = pc.code)) promocodesData = some pc := by
  decide

/-- C13. With the embedded registry, every input that is a registry code written
in any mix of upper and lower case, with any white space before and after it, is
accepted: the call succeeds and the applied and stored promo code is that registry
entry, code and discount. In particular `sushi20` applies `SUSHI20` with 20 %. -/
theorem applyPromocode_embedded_registry (unicodeUpper : Char → List Char) :
    (∀ (s : CartPage) (pc : Promocode) (leading written trailing : String),
      s.promocodes = promocodesData → pc ∈ promocodesData →
      IsCaseVariant written pc.code → IsBlank leading → IsBlank trailing →
      applyPromocode unicodeUpper (leading ++ written ++ trailing) s =
        (PromoOutcome.applied pc.code pc.discount,
          { s with appliedPromocode := some pc,
                   storage := { s.storage with appliedPromocode := some pc } })) ∧
    (∀ s : CartPage, s.promocodes = promocodesData →
      applyPromocode unicodeUpper "sushi20" s =
        (PromoOutcome.applied "SUSHI20" 20,
          { s with appliedPromocode := some { code := "SUSHI20", discount := 20 },
                   storage := { s.storage with
                     appliedPromocode := some { code := "SUSHI20", discount := 20 } } })) := by
  have hgeneral : ∀ (s : CartPage) (pc : Promocode) (leading written trailing : String),
      s.promocodes = promocodesData → pc ∈ promocodesData →
      IsCaseVariant written pc.code → IsBlank leading → IsBlank trailing →
      applyPromocode unicodeUpper (leading ++ written ++ trailing) s =
        (PromoOutcome.applied pc.code pc.discount,
          { s with appliedPromocode := some pc,
                   storage := { s.storage with appliedPromocode := some pc } }) := by
    intro s pc leading written trailing hreg hpc hvar hlead htrail
    obtain ⟨hmap, hws⟩ :=
      caseVariant_spec written.data pc.code.data hvar (promocodesData_chars pc hpc)
    have htrim : trim (leading ++ written ++ trailing) = written :=
      trim_padded leading written trailing hlead htrail hws
    have hupper : toUpperCase unicodeUpper (trim (leading ++ written ++ trailing)) = pc.code := by
      rw [htrim, toUpperCase_of_ascii unicodeUpper written
        (caseVariant_ascii written.data pc.code.data hvar (promocodesData_ascii pc hpc)),
        hmap]
    obtain ⟨hne, hfind⟩ := promocodesData_find pc hpc
    have h := applyPromocode_of_found unicodeUpper (leading ++ written ++ trailing) s pc
      (by rw [hupper]; exact hne) (by rw [hupper, hreg]; exact hfind)
    rw [hupper] at h
    exact h
  refine ⟨hgeneral, ?_⟩
  intro s hreg
  have h := hgeneral s { code := "SUSHI20", discount := 20 } "" "sushi20" "" hreg
    (by decide) (by unfold IsCaseVariant; decide) (by unfold IsBlank; decide)
    (by unfold IsBlank; decide)
  exact h

/-- An instance of C13: the second registry code in mixed case between a space
and a tab, on the sample cart page. -/
theorem applyPromocode_embedded_registry_witness :
    (sampleCartPage.promocodes = promocodesData ∧
      ({ code := "SAKURA15", discount := 15 } : Promocode) ∈ promocodesData ∧
      IsCaseVariant "SaKuRa15" "SAKURA15" ∧ IsBlank " " ∧ IsBlank "\t") ∧
    (applyPromocode unicodeUpperExcerpt (" " ++ "SaKuRa15" ++ "\t") sampleCartPage).1 =
      PromoOutcome.applied "SAKURA15" 15 :=
  have hvar : IsCaseVariant "SaKuRa15" "SAKURA15" := by
    unfold IsCaseVariant
    decide
  have hlead : IsBlank " " := by
    unfold IsBlank
    decide
  have htrail : IsBlank "\t" := by
    unfold IsBlank
    decide
  ⟨⟨rfl, by decide, hvar, hlead, htrail⟩,
    congrArg Prod.fst ((applyPromocode_embedded_registry unicodeUpperExcerpt).1 sampleCartPage
      { code := "SAKURA15", discount := 15 } " " "SaKuRa15" "\t" rfl (by decide)
      hvar hlead htrail)⟩

/-- Inputs outside ASCII go through the Unicode table: with the excerpt of it, the
long s and the dotless i upper-case to `S` and `I`, so `ſushi20` and `sushı20`
apply `SUSHI20`; the sharp s becomes two letters; and a code written in small
Cyrillic letters is not its own upper-case form. -/
theorem applyPromocode_outside_ascii :
    (applyPromocode unicodeUpperExcerpt "ſushi20" sampleCartPage).1 =
      PromoOutcome.applied "SUSHI20" 20 ∧
    (applyPromocode unicodeUpperExcerpt "sushı20" sampleCartPage).1 =
      PromoOutcome.applied "SUSHI20" 20 ∧
    toUpperCase unicodeUpperExcerpt "ß" = "SS" ∧
    toUpperCase unicodeUpperExcerpt "суши10" = "СУШИ10" ∧
    ¬ UpperCaseRegistry unicodeUpperExcerpt [{ code := "суши10", discount := 10 }] := by
  refine ⟨by decide, by decide, by decide, by decide, ?_⟩
  intro h
  exact absurd (h { code := "суши10", discount := 10 } (List.mem_singleton_self _)).2
    (by decide)

/-- C14. For every input that is empty or holds white space only,
`applyPromocode` ends with the enter-a-code error, whatever the registry holds,
and hands the page state on unchanged: the applied promo code in memory, the
stored one and the stored cart are what they were. -/
theorem applyPromocode_blank (unicodeUpper : Char → List Char)
    (input : String) (s : CartPage) (hblank : IsBlank input) :
    (applyPromocode unicodeUpper input s).1 = PromoOutcome.invalidInput ∧
    (applyPromocode unicodeUpper input s).1 ≠ PromoOutcome.notFound ∧
    (applyPromocode unicodeUpper input s).2 = s ∧
    (applyPromocode unicodeUpper input s).2.appliedPromocode = s.appliedPromocode ∧
    (applyPromocode unicodeUpper input s).2.storage.appliedPromocode = s.storage.appliedPromocode ∧
    (applyPromocode unicodeUpper input s).2.storage.cart = s.storage.cart := by
  have hempty : toUpperCase unicodeUpper (trim input) = "" := by
    rw [trim_of_blank input hblank]
    rfl
  rw [applyPromocode_of_empty unicodeUpper input s hempty]
  simp

/-- A valid instance of C14: a space, a tab and a line feed on the sample cart
page. -/
theorem applyPromocode_blank_witness :
    IsBlank " \t\n" ∧
    (applyPromocode unicodeUpperExcerpt " \t\n" sampleCartPage).1 = PromoOutcome.invalidInput ∧
    (applyPromocode unicodeUpperExcerpt " \t\n" sampleCartPage).2 = sampleCartPage :=
  have hblank : IsBlank " \t\n" := by
    unfold IsBlank
    decide
  ⟨hblank, (applyPromocode_blank unicodeUpperExcerpt " \t\n" sampleCartPage hblank).1,
    (applyPromocode_blank unicodeUpperExcerpt " \t\n" sampleCartPage hblank).2.2.1⟩

/-- C15. For every input whose trimmed, upper-cased text is non-empty and is the
code of no registry entry, `applyPromocode` ends with the invalid-code error and
hands the page state on unchanged: a promo code applied before stays applied in
memory and in storage, and the stored cart is what it was. The upper-cased text is
taken with the case table `unicodeUpper`, and the statement holds for every table,
so for the table of the platform: an input that the platform upper-cases to a
registry code, such as `ſushi20`, is not among the inputs meant here. -/
theorem applyPromocode_unknown (unicodeUpper : Char → List Char) (input : String) (s : CartPage)
    (hne : toUpperCase unicodeUpper (trim input) ≠ "")
    (hunknown : ∀ pc ∈ s.promocodes, pc.code ≠ toUpperCase unicodeUpper (trim input)) :
    (applyPromocode unicodeUpper input s).1 = PromoOutcome.notFound ∧
    (applyPromocode unicodeUpper input s).2 = s ∧
    (applyPromocode unicodeUpper input s).2.appliedPromocode = s.appliedPromocode ∧
    (applyPromocode unicodeUpper input s).2.storage.appliedPromocode = s.storage.appliedPromocode ∧
    (applyPromocode unicodeUpper input s).2.storage.cart = s.storage.cart := by
  have hfind := (find_code_eq_none_iff (toUpperCase unicodeUpper (trim input)) s.promocodes).mpr hunknown
  rw [applyPromocode_of_not_found unicodeUpper input s hne hfind]
  simp

/-- A valid instance of C15: the input `NOPE99` on the sample cart page, whose
promo code `SAKURA15` stays applied. -/
theorem applyPromocode_unknown_witness :
    (toUpperCase unicodeUpperExcerpt (trim "NOPE99") ≠ "" ∧
      ∀ pc ∈ sampleCartPage.promocodes, pc.code ≠ toUpperCase unicodeUpperExcerpt (trim "NOPE99")) ∧
    (applyPromocode unicodeUpperExcerpt "NOPE99" sampleCartPage).1 = PromoOutcome.notFound ∧
    (applyPromocode unicodeUpperExcerpt "NOPE99" sampleCartPage).2.appliedPromocode =
      some { code := "SAKURA15", discount := 15 } ∧
    (applyPromocode unicodeUpperExcerpt "NOPE99" sampleCartPage).2.storage.appliedPromocode =
      some { code := "SAKURA15", discount := 15 } :=
  have hne : toUpperCase unicodeUpperExcerpt (trim "NOPE99") ≠ "" := by decide
  have hunknown : ∀ pc ∈ sampleCartPage.promocodes,
      pc.code ≠ toUpperCase unicodeUpperExcerpt (trim "NOPE99") := by decide
  have h := applyPromocode_unknown unicodeUpperExcerpt "NOPE99" sampleCartPage hne hunknown
  ⟨⟨hne, hunknown⟩, h.1, h.2.2.1, h.2.2.2.1⟩

/-- The page state after a successful lookup, field by field. -/
theorem applyPromocode_state_of_found (unicodeUpper : Char → List Char)
    (input : String) (s : CartPage) (pc : Promocode)
    (hne : toUpperCase unicodeUpper (trim input) ≠ "")
    (hfind : find (fun pc => decide (pc.code = toUpperCase unicodeUpper (trim input))) s.promocodes
      = some pc) :
    (applyPromocode unicodeUpper input s).2 =
      { promocodes := s.promocodes, appliedPromocode := some pc,
        storage := { cart := s.storage.cart, appliedPromocode := some pc } } := by
  rw [applyPromocode_of_found unicodeUpper input s pc hne hfind]

/-- C16. Replacement: in every state in which a promo code is applied (in memory
`previous`, in storage `stored`) and for every input whose normalised text is a
registry code, `applyPromocode` succeeds, and afterwards the one applied and
stored promo code is the matched registry entry; the resulting state is the same
whatever was applied before. -/
theorem applyPromocode_replaces (unicodeUpper : Char → List Char)
    (promocodes : List Promocode) (cart : Option (List CartItem))
    (previous stored : Promocode) (input : String)
    (hne : toUpperCase unicodeUpper (trim input) ≠ "")
    (hmatch : ∃ pc ∈ promocodes, pc.code = toUpperCase unicodeUpper (trim input)) :
    ∃ pc ∈ promocodes, pc.code = toUpperCase unicodeUpper (trim input) ∧
      (applyPromocode unicodeUpper input ⟨promocodes, some previous, ⟨cart, some stored⟩⟩).1 =
        PromoOutcome.applied (toUpperCase unicodeUpper (trim input)) pc.discount ∧
      (applyPromocode unicodeUpper input ⟨promocodes, some previous, ⟨cart, some stored⟩⟩).2 =
        ⟨promocodes, some pc, ⟨cart, some pc⟩⟩ ∧
      ∀ earlier kept : Option Promocode,
        (applyPromocode unicodeUpper input ⟨promocodes, earlier, ⟨cart, kept⟩⟩).2 =
          (applyPromocode unicodeUpper input ⟨promocodes, some previous, ⟨cart, some stored⟩⟩).2 := by
  cases hfind : find (fun pc => decide (pc.code = toUpperCase unicodeUpper (trim input))) promocodes with
  | none =>
    obtain ⟨pc, hmem, hcode⟩ := hmatch
    exact absurd hcode ((find_code_eq_none_iff _ _).mp hfind pc hmem)
  | some pc =>
    obtain ⟨hcode, before, after, hsplit, _⟩ := (find_code_eq_some_iff _ _ _).mp hfind
    have hstate : ∀ earlier kept : Option Promocode,
        (applyPromocode unicodeUpper input ⟨promocodes, earlier, ⟨cart, kept⟩⟩).2 =
          ⟨promocodes, some pc, ⟨cart, some pc⟩⟩ :=
      fun earlier kept =>
        applyPromocode_state_of_found unicodeUpper input ⟨promocodes, earlier, ⟨cart, kept⟩⟩ pc hne hfind
    refine ⟨pc, by rw [hsplit]; simp, hcode, ?_, hstate _ _, ?_⟩
    · rw [applyPromocode_of_found unicodeUpper input ⟨promocodes, some previous, ⟨cart, some stored⟩⟩
        pc hne hfind]
    · intro earlier kept
      rw [hstate earlier kept, hstate (some previous) (some stored)]

/-- A valid instance of C16: `welcome10` entered while `SAKURA15` is applied. -/
theorem applyPromocode_replaces_witness :
    (toUpperCase unicodeUpperExcerpt (trim "welcome10") ≠ "" ∧
      ∃ pc ∈ promocodesData, pc.code = toUpperCase unicodeUpperExcerpt (trim "welcome10")) ∧
    ∃ pc ∈ promocodesData, pc.code = toUpperCase unicodeUpperExcerpt (trim "welcome10") ∧
      (applyPromocode unicodeUpperExcerpt "welcome10" ⟨promocodesData,
          some { code := "SAKURA15", discount := 15 },
          ⟨none, some { code := "SAKURA15", discount := 15 }⟩⟩).2 =
        ⟨promocodesData, some pc, ⟨none, some pc⟩⟩ :=
  have hne : toUpperCase unicodeUpperExcerpt (trim "welcome10") ≠ "" := by decide
  have hmatch : ∃ pc ∈ promocodesData, pc.code = toUpperCase unicodeUpperExcerpt (trim "welcome10") :=
    ⟨{ code := "WELCOME10", discount := 10 }, by decide, by decide⟩
  have h := applyPromocode_replaces unicodeUpperExcerpt promocodesData none
    { code := "SAKURA15", discount := 15 } { code := "SAKURA15", discount := 15 }
    "welcome10" hne hmatch
  ⟨⟨hne, hmatch⟩, h.elim fun pc hpc => ⟨pc, hpc.1, hpc.2.1, hpc.2.2.2.1⟩⟩

/-- C17. `removePromocode` always completes and leaves no promo code applied, in
memory and in storage, from every state, touching neither the stored cart nor the
registry; removing twice gives the state that removing once gives; and when no
promo code is applied (none in memory, none stored) the state is left as it was. -/
theorem removePromocode_clears :
    (∀ s : CartPage,
      (removePromocode s).1 = Outcome.ok ∧
      (removePromocode s).2.appliedPromocode = none ∧
      (removePromocode s).2.storage.appliedPromocode = none ∧
      (removePromocode s).2.storage.cart = s.storage.cart ∧
      (removePromocode s).2.promocodes = s.promocodes) ∧
    (∀ s : CartPage, removePromocode (removePromocode s).2 = removePromocode s) ∧
    (∀ s : CartPage, s.appliedPromocode = none → s.storage.appliedPromocode = none →
      (removePromocode s).2 = s) := by
  refine ⟨fun s => ⟨rfl, rfl, rfl, rfl, rfl⟩, fun s => rfl, ?_⟩
  intro s hmem hstored
  obtain ⟨promocodes, applied, ⟨cart, stored⟩⟩ := s
  simp only at hmem hstored
  subst hmem
  subst hstored
  rfl

/-- An instance of C17: the page with the embedded registry, a stored cart and no
promo code is left as it was. -/
theorem removePromocode_clears_witness :
    ((⟨promocodesData, none, storedCart [lineFor philadelphia 2]⟩ : CartPage).appliedPromocode
        = none ∧
      (⟨promocodesData, none, storedCart [lineFor philadelphia 2]⟩ :
        CartPage).storage.appliedPromocode = none) ∧
    (removePromocode ⟨promocodesData, none, storedCart [lineFor philadelphia 2]⟩).2 =
      ⟨promocodesData, none, storedCart [lineFor philadelphia 2]⟩ :=
  ⟨⟨rfl, rfl⟩,
    removePromocode_clears.2.2 ⟨promocodesData, none, storedCart [lineFor philadelphia 2]⟩
      rfl rfl⟩

theorem length_ne_zero_of_ne_nil {α : Type} (xs : List α) (hne : xs ≠ []) :
    ¬ (xs.length = 0) :=
  fun h => hne (List.length_eq_zero.mp h)

/-- C18. Checkout clears state: from every state whose stored cart is not empty,
with or without a promo code, `checkout` confirms the order and afterwards the
key `cart` is gone, so `getCart` returns `[]`, and no promo code is applied in
memory or stored. -/
theorem checkout_clears (s : CartPage) (hne : getCart s.storage ≠ []) :
    (∃ totalQuantity totals,
      (checkout s).1 = CheckoutReport.ordered totalQuantity totals) ∧
    getCart (checkout s).2.storage = [] ∧
    (checkout s).2.storage.cart = none ∧
    (checkout s).2.appliedPromocode = none ∧
    (checkout s).2.storage.appliedPromocode = none := by
  have hlen := length_ne_zero_of_ne_nil _ hne
  unfold checkout
  simp only [hlen, if_false]
  refine ⟨⟨_, _, rfl⟩, ?_, ?_, ?_, ?_⟩ <;> first | rfl | trivial

/-- A valid instance of C18: checkout of the sample cart page, which has two
lines and a promo code. -/
theorem checkout_clears_witness :
    getCart sampleCartPage.storage ≠ [] ∧
    getCart (checkout sampleCartPage).2.storage = [] ∧
    (checkout sampleCartPage).2.appliedPromocode = none ∧
    (checkout sampleCartPage).2.storage.appliedPromocode = none :=
  have hne : getCart sampleCartPage.storage ≠ [] := by decide
  have h := checkout_clears sampleCartPage hne
  ⟨hne, h.2.1, h.2.2.2.1, h.2.2.2.2⟩

/-- C19. From every state whose stored cart is empty (or absent), `checkout`
ends with the empty-cart alert and hands the page state on unchanged: the cart
stays empty and the promo code, absent or present, is the same in memory and in
storage. -/
theorem checkout_empty (s : CartPage) (hempty : getCart s.storage = []) :
    (checkout s).1 = CheckoutReport.emptyCart ∧
    (checkout s).2 = s ∧
    getCart (checkout s).2.storage = [] ∧
    (checkout s).2.appliedPromocode = s.appliedPromocode ∧
    (checkout s).2.storage.appliedPromocode = s.storage.appliedPromocode := by
  unfold checkout
  simp only [hempty, List.length_nil, if_true, and_self]

/-- A valid instance of C19: an empty stored cart with a promo code applied and
stored. -/
theorem checkout_empty_witness :
    getCart (⟨promocodesData, some { code := "SUSHI20", discount := 20 },
      ⟨some [], some { code := "SUSHI20", discount := 20 }⟩⟩ : CartPage).storage = [] ∧
    checkout ⟨promocodesData, some { code := "SUSHI20", discount := 20 },
      ⟨some [], some { code := "SUSHI20", discount := 20 }⟩⟩ =
      (CheckoutReport.emptyCart, ⟨promocodesData, some { code := "SUSHI20", discount := 20 },
        ⟨some [], some { code := "SUSHI20", discount := 20 }⟩⟩) :=
  have h := checkout_empty ⟨promocodesData, some { code := "SUSHI20", discount := 20 },
      ⟨some [], some { code := "SUSHI20", discount := 20 }⟩⟩ rfl
  ⟨rfl, Prod.ext h.1 h.2.1⟩

theorem foldl_quantity_eq_sum (cart : List CartItem) :
    ∀ acc : Int, cart.foldl (fun sum item => sum + item.quantity) acc =
      acc + (cart.map CartItem.quantity).sum := by
  induction cart with
  | nil => intro acc; simp
  | cons item rest ih =>
    intro acc
    simp only [List.foldl_cons, List.map_cons, List.sum_cons, ih]
    omega

/-- With whole-number prices the subtotal is a whole number. -/
theorem subtotal_isInt (cart : List CartItem)
    (hprices : ∀ item ∈ cart, ∃ p : Int, item.price = (p : ℚ)) :
    ∃ k : Int, (cart.map (fun item => item.price * (item.quantity : ℚ))).sum = (k : ℚ) := by
  induction cart with
  | nil => exact ⟨0, by simp⟩
  | cons item rest ih =>
    obtain ⟨p, hp⟩ := hprices item (List.mem_cons_self _ _)
    obtain ⟨k, hk⟩ := ih (fun x hx => hprices x (List.mem_cons_of_mem _ hx))
    refine ⟨p * item.quantity + k, ?_⟩
    simp only [List.map_cons, List.sum_cons, hk, hp]
    push_cast
    ring

/-- C20. On a successful checkout the reported figures are those of the state
before clearing: the item count is the sum of the quantities of the lines of the
cart as it was stored, the subtotal is the sum of price times quantity over those
lines, the discount is subtotal * D / 100 for the promo code applied at that
moment (0 without one) and the total is the subtotal minus the discount. With
whole-number prices the total is a whole number of hundredths, so showing it with
two decimals loses nothing. -/
theorem checkout_reports (s : CartPage) (hne : getCart s.storage ≠ []) :
    ∃ totalQuantity totals,
      (checkout s).1 = CheckoutReport.ordered totalQuantity totals ∧
      totalQuantity = ((getCart s.storage).map CartItem.quantity).sum ∧
      totals.subtotal =
        ((getCart s.storage).map (fun item => item.price * (item.quantity : ℚ))).sum ∧
      (∀ promocode, s.appliedPromocode = some promocode →
        totals.discount = totals.subtotal * (promocode.discount : ℚ) / 100) ∧
      (s.appliedPromocode = none → totals.discount = 0) ∧
      totals.total = totals.subtotal - totals.discount ∧
      ((∀ item ∈ getCart s.storage, ∃ p : Int, item.price = (p : ℚ)) →
        ∃ k : Int, totals.total * 100 = (k : ℚ)) := by
  have hlen := length_ne_zero_of_ne_nil _ hne
  have hsub : (calculateSubtotal s).1 =
      ((getCart s.storage).map (fun item => item.price * (item.quantity : ℚ))).sum := by
    unfold calculateSubtotal
    simp only [foldl_add_eq_sum, zero_add]
  refine ⟨((getCart s.storage).map CartItem.quantity).sum,
    { subtotal := (calculateSubtotal s).1,
      discount := (match s.appliedPromocode with
        | some promocode => (calculateSubtotal s).1 * (promocode.discount : ℚ) / 100
        | none => 0),
      total := (calculateSubtotal s).1 - (match s.appliedPromocode with
        | some promocode => (calculateSubtotal s).1 * (promocode.discount : ℚ) / 100
        | none => 0) }, ?_, rfl, hsub, ?_, ?_, rfl, ?_⟩
  · unfold checkout
    simp only [hlen, if_false, foldl_quantity_eq_sum, zero_add]
  · intro promocode happlied
    simp only [happlied]
  · intro happlied
    simp only [happlied]
  · intro hprices
    obtain ⟨k, hk⟩ := subtotal_isInt _ hprices
    simp only [hsub, hk]
    cases s.appliedPromocode with
    | none =>
      refine ⟨k * 100, ?_⟩
      push_cast
      ring
    | some promocode =>
      refine ⟨k * 100 - k * promocode.discount, ?_⟩
      push_cast
      ring

/-- A valid instance of C20: checkout of the sample cart page reports three
items and the figures 1280, 192 and 1088. -/
theorem checkout_reports_witness :
    getCart sampleCartPage.storage ≠ [] ∧
    ∃ totalQuantity totals,
      (checkout sampleCartPage).1 = CheckoutReport.ordered totalQuantity totals ∧
      totalQuantity = 3 ∧ totals.subtotal = 1280 ∧ totals.discount = 192 ∧
      totals.total = 1088 :=
  have hne : getCart sampleCartPage.storage ≠ [] := by decide
  have h := checkout_reports sampleCartPage hne
  ⟨hne, h.elim fun totalQuantity h => h.elim fun totals h =>
    have hsub : totals.subtotal = 1280 := by
      rw [h.2.2.1]
      simp [getCart, sampleCartPage]
      norm_num
    have hdisc : totals.discount = 192 := by
      rw [h.2.2.2.1 { code := "SAKURA15", discount := 15 } rfl, hsub]
      norm_num
    ⟨totalQuantity, totals, h.1, by rw [h.2.1]; decide, hsub, hdisc,
      by rw [h.2.2.2.2.2.1, hsub, hdisc]; norm_num⟩⟩

/-! ### Promo code invariants -/

theorem fromRegistry_none (registry : List Promocode) : FromRegistry registry none := by
  intro pc h
  exact absurd h (by simp)

theorem fromRegistry_some_of_mem (registry : List Promocode) (pc : Promocode)
    (hmem : pc ∈ registry) : FromRegistry registry (some pc) := by
  intro pc' h
  simp only [Option.some.injEq] at h
  subst h
  exact ⟨pc, hmem, rfl, rfl⟩

/-- The state after `loadAppliedPromocode`, field by field. -/
theorem loadAppliedPromocode_fields (s : CartPage) :
    (loadAppliedPromocode s).promocodes = s.promocodes ∧
    (loadAppliedPromocode s).storage = s.storage ∧
    (s.storage.appliedPromocode = none →
      (loadAppliedPromocode s).appliedPromocode = s.appliedPromocode) ∧
    (∀ saved, s.storage.appliedPromocode = some saved →
      (loadAppliedPromocode s).appliedPromocode = some saved) := by
  unfold loadAppliedPromocode
  split
  · next saved hsaved =>
    refine ⟨rfl, rfl, ?_, ?_⟩
    · intro h; rw [h] at hsaved; exact absurd hsaved (by simp)
    · intro saved' h
      rw [h] at hsaved
      exact hsaved.symm ▸ rfl
  · next hnone =>
    refine ⟨rfl, rfl, fun _ => rfl, ?_⟩
    intro saved h
    rw [h] at hnone
    exact absurd hnone (by simp)

/-- The state of `pageLoad`, field by field. -/
theorem pageLoad_fields (appData : List Promocode) (storage : LocalStorage) :
    (pageLoad appData storage).promocodes = appData ∧
    (pageLoad appData storage).appliedPromocode = storage.appliedPromocode ∧
    (pageLoad appData storage).storage = storage := by
  unfold pageLoad loadData loadAppliedPromocode
  cases h : storage.appliedPromocode <;> simp [h]

/-- Every promo-related step keeps the registry in place and keeps the applied
and the stored promo code absent or taken from the registry. -/
theorem PromoOp.run_fromRegistry (unicodeUpper : Char → List Char)
    (appData : List Promocode) (op : PromoOp) (s : CartPage)
    (hreg : s.promocodes = appData)
    (hmem : FromRegistry appData s.appliedPromocode)
    (hstored : FromRegistry appData s.storage.appliedPromocode) :
    (op.run unicodeUpper appData s).promocodes = appData ∧
    FromRegistry appData (op.run unicodeUpper appData s).appliedPromocode ∧
    FromRegistry appData (op.run unicodeUpper appData s).storage.appliedPromocode := by
  cases op with
  | apply input =>
    show (applyPromocode unicodeUpper input s).2.promocodes = appData ∧
      FromRegistry appData (applyPromocode unicodeUpper input s).2.appliedPromocode ∧
      FromRegistry appData (applyPromocode unicodeUpper input s).2.storage.appliedPromocode
    by_cases hempty : toUpperCase unicodeUpper (trim input) = ""
    · rw [applyPromocode_of_empty unicodeUpper input s hempty]
      exact ⟨hreg, hmem, hstored⟩
    · cases hfind : find (fun pc => decide (pc.code = toUpperCase unicodeUpper (trim input)))
          s.promocodes with
      | none =>
        rw [applyPromocode_of_not_found unicodeUpper input s hempty hfind]
        exact ⟨hreg, hmem, hstored⟩
      | some pc =>
        rw [applyPromocode_of_found unicodeUpper input s pc hempty hfind]
        have hpc : pc ∈ appData := by
          rw [← hreg]
          exact List.mem_of_find?_eq_some hfind
        exact ⟨hreg, fromRegistry_some_of_mem _ _ hpc, fromRegistry_some_of_mem _ _ hpc⟩
  | remove =>
    exact ⟨hreg, fromRegistry_none _, fromRegistry_none _⟩
  | checkOut =>
    show (checkout s).2.promocodes = appData ∧
      FromRegistry appData (checkout s).2.appliedPromocode ∧
      FromRegistry appData (checkout s).2.storage.appliedPromocode
    unfold checkout
    by_cases hlen : (getCart s.storage).length = 0
    · simp only [hlen, if_true]
      exact ⟨hreg, hmem, hstored⟩
    · simp only [hlen, if_false]
      exact ⟨hreg, fromRegistry_none _, fromRegistry_none _⟩
  | loadApplied =>
    show (loadAppliedPromocode s).promocodes = appData ∧
      FromRegistry appData (loadAppliedPromocode s).appliedPromocode ∧
      FromRegistry appData (loadAppliedPromocode s).storage.appliedPromocode
    obtain ⟨h1, h2, h3, h4⟩ := loadAppliedPromocode_fields s
    rw [h1, h2]
    refine ⟨hreg, ?_, hstored⟩
    cases h : s.storage.appliedPromocode with
    | none => rw [h3 h]; exact hmem
    | some saved => rw [h4 saved h, ← h]; exact hstored
  | reload =>
    show (pageLoad appData s.storage).promocodes = appData ∧
      FromRegistry appData (pageLoad appData s.storage).appliedPromocode ∧
      FromRegistry appData (pageLoad appData s.storage).storage.appliedPromocode
    obtain ⟨h1, h2, h3⟩ := pageLoad_fields appData s.storage
    rw [h1, h2, h3]
    exact ⟨rfl, hstored, hstored⟩

theorem runPromoOps_fromRegistry (unicodeUpper : Char → List Char)
    (appData : List Promocode) (ops : List PromoOp) :
    ∀ s : CartPage, s.promocodes = appData →
      FromRegistry appData s.appliedPromocode →
      FromRegistry appData s.storage.appliedPromocode →
      (runPromoOps unicodeUpper appData ops s).promocodes = appData ∧
      FromRegistry appData (runPromoOps unicodeUpper appData ops s).appliedPromocode ∧
      FromRegistry appData (runPromoOps unicodeUpper appData ops s).storage.appliedPromocode := by
  induction ops with
  | nil => intro s hreg hmem hstored; exact ⟨hreg, hmem, hstored⟩
  | cons op ops ih =>
    intro s hreg hmem hstored
    obtain ⟨h1, h2, h3⟩ := PromoOp.run_fromRegistry unicodeUpper appData op s hreg hmem hstored
    exact ih (op.run unicodeUpper appData s) h1 h2 h3

/-- C21. Applied-promo invariant: from a fresh state (no promo code in memory,
none stored, any stored cart) and after every finite sequence of
`applyPromocode` with any input, `removePromocode`, `checkout`,
`loadAppliedPromocode` and page reloads over a fixed registry, the applied promo
code, in memory and in storage, is absent or equal in code and discount to an
entry of the registry. -/
theorem applied_promo_from_registry (unicodeUpper : Char → List Char) (appData : List Promocode)
    (cart : Option (List CartItem)) (ops : List PromoOp) :
    FromRegistry appData
      (runPromoOps unicodeUpper appData ops ⟨appData, none, ⟨cart, none⟩⟩).appliedPromocode ∧
    FromRegistry appData
      (runPromoOps unicodeUpper appData ops ⟨appData, none, ⟨cart, none⟩⟩).storage.appliedPromocode ∧
    ((runPromoOps unicodeUpper appData ops ⟨appData, none, ⟨cart, none⟩⟩).appliedPromocode = none ∨
      ∃ entry ∈ appData,
        (runPromoOps unicodeUpper appData ops ⟨appData, none, ⟨cart, none⟩⟩).appliedPromocode
          = some entry) := by
  obtain ⟨_, h2, h3⟩ := runPromoOps_fromRegistry unicodeUpper appData ops ⟨appData, none, ⟨cart, none⟩⟩
    rfl (fromRegistry_none _) (fromRegistry_none _)
  refine ⟨h2, h3, ?_⟩
  cases happlied : (runPromoOps unicodeUpper appData ops ⟨appData, none, ⟨cart, none⟩⟩).appliedPromocode with
  | none => exact Or.inl rfl
  | some pc =>
    right
    obtain ⟨entry, hentry, hcode, hdiscount⟩ := h2 pc happlied
    refine ⟨entry, hentry, ?_⟩
    obtain ⟨code, discount⟩ := pc
    obtain ⟨code', discount'⟩ := entry
    simp only at hcode hdiscount
    subst hcode
    subst hdiscount
    rfl

theorem applyPromocode_promoAgrees (unicodeUpper : Char → List Char) (input : String) (s : CartPage)
    (hagree : PromoAgrees s) : PromoAgrees (applyPromocode unicodeUpper input s).2 := by
  by_cases hempty : toUpperCase unicodeUpper (trim input) = ""
  · rw [applyPromocode_of_empty unicodeUpper input s hempty]
    exact hagree
  · cases hfind : find (fun pc => decide (pc.code = toUpperCase unicodeUpper (trim input)))
        s.promocodes with
    | none =>
      rw [applyPromocode_of_not_found unicodeUpper input s hempty hfind]
      exact hagree
    | some pc =>
      rw [applyPromocode_of_found unicodeUpper input s pc hempty hfind]
      rfl

theorem checkout_promoAgrees (s : CartPage) (hagree : PromoAgrees s) :
    PromoAgrees (checkout s).2 := by
  unfold checkout
  by_cases hlen : (getCart s.storage).length = 0
  · simp only [hlen, if_true]
    exact hagree
  · simp only [hlen, if_false]
    rfl

theorem pageLoad_promoAgrees (appData : List Promocode) (storage : LocalStorage) :
    PromoAgrees (pageLoad appData storage) := by
  obtain ⟨_, h2, h3⟩ := pageLoad_fields appData storage
  unfold PromoAgrees
  rw [h2, h3]

theorem PromoOp.run_promoAgrees (unicodeUpper : Char → List Char)
    (appData : List Promocode) (op : PromoOp) (s : CartPage)
    (hagree : PromoAgrees s) : PromoAgrees (op.run unicodeUpper appData s) := by
  cases op with
  | apply input => exact applyPromocode_promoAgrees unicodeUpper input s hagree
  | remove => rfl
  | checkOut => exact checkout_promoAgrees s hagree
  | loadApplied =>
    show PromoAgrees (loadAppliedPromocode s)
    obtain ⟨_, h2, h3, h4⟩ := loadAppliedPromocode_fields s
    unfold PromoAgrees at hagree ⊢
    rw [h2]
    cases h : s.storage.appliedPromocode with
    | none => rw [h3 h, hagree, h]
    | some saved => rw [h4 saved h]
  | reload => exact pageLoad_promoAgrees appData s.storage

theorem runPromoOps_promoAgrees (unicodeUpper : Char → List Char)
    (appData : List Promocode) (ops : List PromoOp) :
    ∀ s : CartPage, PromoAgrees s → PromoAgrees (runPromoOps unicodeUpper appData ops s) := by
  induction ops with
  | nil => intro s h; exact h
  | cons op ops ih =>
    intro s h
    exact ih (op.run unicodeUpper appData s) (PromoOp.run_promoAgrees unicodeUpper appData op s h)

/-- C22. Promo persistence: if the promo code in memory agrees with the one
stored under `appliedPromocode` (absent key, no promo code), then it still agrees
after `applyPromocode` with any input, accepted or rejected, after
`removePromocode` and after `checkout`, successful or not; so after any sequence
of such steps a fresh start of the page restores exactly the promo code, code and
discount, that is applied at that moment. -/
theorem promo_persistence (unicodeUpper : Char → List Char)
    (s : CartPage) (hagree : PromoAgrees s) :
    (∀ input, PromoAgrees (applyPromocode unicodeUpper input s).2) ∧
    PromoAgrees (removePromocode s).2 ∧
    PromoAgrees (checkout s).2 ∧
    (∀ (appData : List Promocode) (ops : List PromoOp),
      PromoAgrees (runPromoOps unicodeUpper appData ops s) ∧
      (pageLoad appData (runPromoOps unicodeUpper appData ops s).storage).appliedPromocode =
        (runPromoOps unicodeUpper appData ops s).appliedPromocode) := by
  refine ⟨fun input => applyPromocode_promoAgrees unicodeUpper input s hagree, rfl,
    checkout_promoAgrees s hagree, ?_⟩
  intro appData ops
  have h := runPromoOps_promoAgrees unicodeUpper appData ops s hagree
  refine ⟨h, ?_⟩
  rw [(pageLoad_fields appData _).2.1]
  exact h.symm

/-- A valid instance of C22: on a page with a stored cart and no promo code,
`sushi20` is applied and `nope` is rejected; a fresh start then restores
`SUSHI20` with 20 %. -/
theorem promo_persistence_witness :
    PromoAgrees ⟨promocodesData, none, storedCart [lineFor philadelphia 1]⟩ ∧
    (pageLoad promocodesData
      (runPromoOps unicodeUpperExcerpt promocodesData [PromoOp.apply "sushi20", PromoOp.apply "nope"]
        ⟨promocodesData, none, storedCart [lineFor philadelphia 1]⟩).storage).appliedPromocode =
      some { code := "SUSHI20", discount := 20 } :=
  have h := ((promo_persistence unicodeUpperExcerpt ⟨promocodesData, none, storedCart [lineFor philadelphia 1]⟩
    rfl).2.2.2 promocodesData [PromoOp.apply "sushi20", PromoOp.apply "nope"]).2
  ⟨rfl, h.trans (by decide)⟩

/-! ### The three add-to-cart functions compared -/

theorem append_singleton_ne {α : Type} (xs : List α) (a : α) : xs ++ [a] ≠ xs := by
  intro h
  have hlen := congrArg List.length h
  simp at hlen

/-- C23. The guard against non-positive quantities exists only on the
similar-dish card: for a quantity below one `addToCartFromSimilarCard` leaves the
storage as it is, whatever the catalog and the dish id, whereas
`addToCartFromCard` and `addToCart` store the cart changed by the same
increment-or-push as for a positive quantity; for a dish not yet in the cart they
append a line whose quantity is the given non-positive one. -/
theorem nonpositive_quantity_guard (dish : Dish) (quantity : Int) (ls : LocalStorage)
    (hq : quantity < 1) :
    (∀ (dishesData : List Dish) (dishId : Nat),
      addToCartFromSimilarCard dishesData dishId quantity ls = ls) ∧
    getCart (addToCartFromCard dish quantity ls) = mergeLine dish quantity (getCart ls) ∧
    getCart (addToCart (some dish) quantity ls) = mergeLine dish quantity (getCart ls) ∧
    ((∀ item ∈ getCart ls, item.dishId ≠ dish.id) →
      getCart (addToCartFromCard dish quantity ls) =
        getCart ls ++ [{ dishId := dish.id, name := dish.name, price := dish.price,
                         quantity := quantity, image := dish.image }] ∧
      getCart (addToCart (some dish) quantity ls) =
        getCart ls ++ [{ dishId := dish.id, name := dish.name, price := dish.price,
                         quantity := quantity, image := dish.image }] ∧
      getCart (addToCartFromCard dish quantity ls) ≠ getCart ls ∧
      getCart (addToCart (some dish) quantity ls) ≠ getCart ls ∧
      ∃ line ∈ getCart (addToCartFromCard dish quantity ls),
        line.dishId = dish.id ∧ line.quantity ≤ 0) := by
  refine ⟨?_, getCart_addToCartFromCard dish quantity ls,
    getCart_addToCart dish quantity ls, ?_⟩
  · intro dishesData dishId
    unfold addToCartFromSimilarCard
    have hguard : quantity = 0 ∨ quantity < 1 := Or.inr hq
    cases find (fun item => decide (item.id = dishId)) dishesData with
    | none => rfl
    | some found => simp only [hguard, if_true]
  · intro habsent
    have happend := mergeLine_of_absent dish quantity (getCart ls) habsent
    rw [getCart_addToCartFromCard, getCart_addToCart, happend]
    refine ⟨rfl, rfl, append_singleton_ne _ _, append_singleton_ne _ _, ?_⟩
    exact ⟨_, List.mem_append_right _ (List.mem_singleton_self _), rfl, by
      show quantity ≤ 0
      omega⟩

/-- A valid instance of C23: quantity 0 for the first dish on a fresh storage. -/
theorem nonpositive_quantity_guard_witness :
    (0 : Int) < 1 ∧
    addToCartFromSimilarCard [philadelphia, california] 1 0 freshStorage = freshStorage ∧
    getCart (addToCartFromCard philadelphia 0 freshStorage) =
      getCart freshStorage ++ [lineFor philadelphia 0] :=
  have h := nonpositive_quantity_guard philadelphia 0 freshStorage (by decide)
  ⟨by decide, h.1 [philadelphia, california] 1,
    (h.2.2.2 (by intro item hitem; simp [getCart, freshStorage] at hitem)).1⟩

/-- In a catalog with pairwise distinct ids the lookup of a dish's id returns
that dish. -/
theorem find_of_mem_of_nodup (dishesData : List Dish) (dish : Dish)
    (hmem : dish ∈ dishesData) (hnodup : (dishesData.map Dish.id).Nodup) :
    find (fun item => decide (item.id = dish.id)) dishesData = some dish := by
  unfold find
  induction dishesData with
  | nil => simp at hmem
  | cons first rest ih =>
    simp only [List.map_cons, List.nodup_cons] at hnodup
    rcases List.mem_cons.mp hmem with rfl | hrest
    · simp
    · have hne : ¬ first.id = dish.id := by
        intro h
        apply hnodup.1
        rw [h]
        exact List.mem_map_of_mem Dish.id hrest
      simp only [List.find?_cons, hne, decide_False]
      exact ih hrest hnodup.2

theorem add_functions_agree (dishesData : List Dish) (dish : Dish) (quantity : Int)
    (ls : LocalStorage) (hq : 1 ≤ quantity)
    (hfind : find (fun item => decide (item.id = dish.id)) dishesData = some dish) :
    addToCartFromCard dish quantity ls = addToCart (some dish) quantity ls ∧
    addToCart (some dish) quantity ls =
      addToCartFromSimilarCard dishesData dish.id quantity ls := by
  refine ⟨rfl, ?_⟩
  unfold addToCartFromSimilarCard addToCart
  have hguard : ¬ (quantity = 0 ∨ quantity < 1) := by omega
  simp only [hfind, hguard, if_false]

/-- C24. The three add-to-cart functions are equivalent on valid input: for every
storage, every dish and every quantity of at least one, `addToCartFromCard`,
`addToCart` with `currentDish` set to the dish and `addToCartFromSimilarCard`
with a catalog whose lookup of the dish's id gives the dish (as it does when the
dish is in a catalog of pairwise distinct ids) store the same cart and leave the
same storage. -/
theorem add_entry_points_equivalent :
    (∀ (dishesData : List Dish) (dish : Dish) (quantity : Int) (ls : LocalStorage),
      1 ≤ quantity →
      find (fun item => decide (item.id = dish.id)) dishesData = some dish →
      addToCartFromCard dish quantity ls = addToCart (some dish) quantity ls ∧
      addToCart (some dish) quantity ls =
        addToCartFromSimilarCard dishesData dish.id quantity ls ∧
      getCart (addToCartFromCard dish quantity ls) =
        getCart (addToCartFromSimilarCard dishesData dish.id quantity ls)) ∧
    (∀ (dishesData : List Dish) (dish : Dish) (quantity : Int) (ls : LocalStorage),
      1 ≤ quantity → dish ∈ dishesData → (dishesData.map Dish.id).Nodup →
      addToCartFromCard dish quantity ls = addToCart (some dish) quantity ls ∧
      addToCart (some dish) quantity ls =
        addToCartFromSimilarCard dishesData dish.id quantity ls ∧
      getCart (addToCartFromCard dish quantity ls) =
        getCart (addToCartFromSimilarCard dishesData dish.id quantity ls)) := by
  have hmain : ∀ (dishesData : List Dish) (dish : Dish) (quantity : Int)
      (ls : LocalStorage), 1 ≤ quantity →
      find (fun item => decide (item.id = dish.id)) dishesData = some dish →
      addToCartFromCard dish quantity ls = addToCart (some dish) quantity ls ∧
      addToCart (some dish) quantity ls =
        addToCartFromSimilarCard dishesData dish.id quantity ls ∧
      getCart (addToCartFromCard dish quantity ls) =
        getCart (addToCartFromSimilarCard dishesData dish.id quantity ls) := by
    intro dishesData dish quantity ls hq hfind
    obtain ⟨h1, h2⟩ := add_functions_agree dishesData dish quantity ls hq hfind
    exact ⟨h1, h2, by rw [h1, h2]⟩
  exact ⟨hmain, fun dishesData dish quantity ls hq hmem hnodup =>
    hmain dishesData dish quantity ls hq (find_of_mem_of_nodup dishesData dish hmem hnodup)⟩

/-- An instance of C24: two portions of the second dish added to a cart that
holds the first, with the two-dish catalog. -/
theorem add_entry_points_equivalent_witness :
    ((1 : Int) ≤ 2 ∧ california ∈ [philadelphia, california] ∧
      (([philadelphia, california] : List Dish).map Dish.id).Nodup) ∧
    addToCartFromCard california 2 (storedCart [lineFor philadelphia 1]) =
      addToCart (some california) 2 (storedCart [lineFor philadelphia 1]) ∧
    addToCart (some california) 2 (storedCart [lineFor philadelphia 1]) =
      addToCartFromSimilarCard [philadelphia, california] california.id 2
        (storedCart [lineFor philadelphia 1]) :=
  have hmem : california ∈ [philadelphia, california] := by simp
  have hnodup : (([philadelphia, california] : List Dish).map Dish.id).Nodup := by decide
  have h := add_entry_points_equivalent.2 [philadelphia, california] california 2
    (storedCart [lineFor philadelphia 1]) (by decide) hmem hnodup
  ⟨⟨by decide, hmem, hnodup⟩, h.1, h.2.1⟩

/-! ### Frames, bounds and undo -/

/-- `updateCartQuantity` never writes the promo code or the registry, whatever the
index. -/
theorem updateCartQuantity_frame (index change : Int) (s : CartPage) :
    (updateCartQuantity index change s).2.appliedPromocode = s.appliedPromocode ∧
    (updateCartQuantity index change s).2.storage.appliedPromocode =
      s.storage.appliedPromocode ∧
    (updateCartQuantity index change s).2.promocodes = s.promocodes := by
  unfold updateCartQuantity
  simp only []
  split <;> exact ⟨rfl, rfl, rfl⟩

/-- `applyPromocode` never writes the stored cart or the registry. -/
theorem applyPromocode_frame (unicodeUpper : Char → List Char) (input : String) (s : CartPage) :
    (applyPromocode unicodeUpper input s).2.storage.cart = s.storage.cart ∧
    (applyPromocode unicodeUpper input s).2.promocodes = s.promocodes := by
  by_cases hempty : toUpperCase unicodeUpper (trim input) = ""
  · rw [applyPromocode_of_empty unicodeUpper input s hempty]
    exact ⟨rfl, rfl⟩
  · cases hfind : find (fun pc => decide (pc.code = toUpperCase unicodeUpper (trim input)))
        s.promocodes with
    | none =>
      rw [applyPromocode_of_not_found unicodeUpper input s hempty hfind]
      exact ⟨rfl, rfl⟩
    | some pc =>
      rw [applyPromocode_of_found unicodeUpper input s pc hempty hfind]
      exact ⟨rfl, rfl⟩

/-- C25. Cart edits and promo edits are independent: `updateCartQuantity` and
`removeFromCart` with a valid index leave the promo code unchanged in memory and
in storage, also when they remove the only line of the cart, so that an applied
promo code survives an emptied cart; `applyPromocode` and `removePromocode` leave
the stored cart unchanged. -/
theorem cart_and_promo_independent (unicodeUpper : Char → List Char) (s : CartPage) (i : Nat)
    (hlt : i < (getCart s.storage).length) :
    (∀ change : Int,
      (updateCartQuantity (i : Int) change s).1 = Outcome.ok ∧
      (updateCartQuantity (i : Int) change s).2.appliedPromocode = s.appliedPromocode ∧
      (updateCartQuantity (i : Int) change s).2.storage.appliedPromocode =
        s.storage.appliedPromocode) ∧
    ((removeFromCart (i : Int) s).2.appliedPromocode = s.appliedPromocode ∧
      (removeFromCart (i : Int) s).2.storage.appliedPromocode =
        s.storage.appliedPromocode) ∧
    ((getCart s.storage).length = 1 →
      getCart (removeFromCart (i : Int) s).2.storage = [] ∧
      (removeFromCart (i : Int) s).2.appliedPromocode = s.appliedPromocode ∧
      (removeFromCart (i : Int) s).2.storage.appliedPromocode =
        s.storage.appliedPromocode ∧
      ∀ (change : Int) (item : CartItem), (getCart s.storage)[i]? = some item →
        item.quantity + change ≤ 0 →
        getCart (updateCartQuantity (i : Int) change s).2.storage = [] ∧
        (updateCartQuantity (i : Int) change s).2.appliedPromocode = s.appliedPromocode ∧
        (updateCartQuantity (i : Int) change s).2.storage.appliedPromocode =
          s.storage.appliedPromocode) ∧
    (∀ input : String, (applyPromocode unicodeUpper input s).2.storage.cart = s.storage.cart) ∧
    (removePromocode s).2.storage.cart = s.storage.cart := by
  have hremove := removeFromCart_valid s i hlt
  refine ⟨?_, ?_, ?_, fun input => (applyPromocode_frame unicodeUpper input s).1, rfl⟩
  · intro change
    obtain ⟨h1, h2, _⟩ := updateCartQuantity_frame (i : Int) change s
    refine ⟨?_, h1, h2⟩
    simp only [updateCartQuantity, getAt_natCast, List.getElem?_eq_getElem hlt]
  · rw [hremove]
    exact ⟨rfl, rfl⟩
  · intro hone
    have herase : (getCart s.storage).eraseIdx i = [] := by
      apply List.length_eq_zero.mp
      rw [List.length_eraseIdx_of_lt hlt, hone]
    refine ⟨?_, ?_, ?_, ?_⟩
    · rw [hremove]
      simp only [getCart_setCart, herase]
    · rw [hremove]
    · rw [hremove]
      rfl
    · intro change item hget hle
      obtain ⟨h1, h2, _⟩ := updateCartQuantity_frame (i : Int) change s
      refine ⟨?_, h1, h2⟩
      rw [updateCartQuantity_remove s i change item hget hle]
      simp only [getCart_setCart, herase]

/-- A valid instance of C25: the promo code of the sample cart page stays applied
and stored when the second line is removed. -/
theorem cart_and_promo_independent_witness :
    1 < (getCart sampleCartPage.storage).length ∧
    (removeFromCart ((1 : Nat) : Int) sampleCartPage).2.appliedPromocode =
      sampleCartPage.appliedPromocode ∧
    (removeFromCart ((1 : Nat) : Int) sampleCartPage).2.storage.appliedPromocode =
      sampleCartPage.storage.appliedPromocode :=
  ⟨by decide, (cart_and_promo_independent unicodeUpperExcerpt sampleCartPage 1 (by decide)).2.1⟩

/-- With non-negative prices and quantities of at least one the subtotal is not
negative. -/
theorem calculateSubtotal_nonneg (s : CartPage)
    (hprices : ∀ item ∈ getCart s.storage, 0 ≤ item.price)
    (hquantities : ∀ item ∈ getCart s.storage, 1 ≤ item.quantity) :
    0 ≤ (calculateSubtotal s).1 := by
  unfold calculateSubtotal
  simp only [foldl_add_eq_sum, zero_add]
  apply List.sum_nonneg
  intro x hx
  obtain ⟨item, hitem, rfl⟩ := List.mem_map.mp hx
  have hp := hprices item hitem
  have hq : (0 : ℚ) ≤ (item.quantity : ℚ) := by
    have := hquantities item hitem
    exact_mod_cast (by omega : (0 : Int) ≤ item.quantity)
  exact mul_nonneg hp hq

/-- The three statements that compute discount and total keep within the bounds
when the subtotal is not negative and the percentage lies in `[0, 100]`. -/
theorem withinBounds_of_percentage (S : ℚ) (D : Int) (hS : 0 ≤ S) (hlow : 0 ≤ D)
    (hhigh : D ≤ 100) :
    Totals.WithinBounds D
      { subtotal := S, discount := S * (D : ℚ) / 100, total := S - S * (D : ℚ) / 100 } := by
  have hD0 : (0 : ℚ) ≤ (D : ℚ) := by exact_mod_cast hlow
  have hD1 : (D : ℚ) ≤ 100 := by exact_mod_cast hhigh
  have hdisc0 : 0 ≤ S * (D : ℚ) / 100 := by positivity
  have hdisc1 : S * (D : ℚ) / 100 ≤ S := by
    have : S * (D : ℚ) ≤ S * 100 := mul_le_mul_of_nonneg_left hD1 hS
    linarith
  refine ⟨hdisc0, hdisc1, ?_, ?_, ?_, ?_⟩
  · show 0 ≤ S - S * (D : ℚ) / 100
    linarith
  · show S - S * (D : ℚ) / 100 ≤ S
    linarith
  · intro h
    show S - S * (D : ℚ) / 100 = S
    rw [h]
    simp
  · intro h
    show S - S * (D : ℚ) / 100 = 0
    rw [h]
    push_cast
    ring

/-- The bounds in exact arithmetic: were no result rounded, then for every cart with
non-negative prices and quantities of at least one and an applied promo code whose
percentage `D` is an integer in `[0, 100]` the three formulas would give
`0 ≤ discount ≤ subtotal` and `0 ≤ total ≤ subtotal`, with `total = subtotal` at
`D = 0` and `total = 0` at `D = 100`. What JavaScript computes is rounded after
every operation and can leave these bounds. -/
theorem exactTotals_bounded (s : CartPage) (promocode : Promocode)
    (hprices : ∀ item ∈ getCart s.storage, 0 ≤ item.price)
    (hquantities : ∀ item ∈ getCart s.storage, 1 ≤ item.quantity)
    (happlied : s.appliedPromocode = some promocode)
    (hlow : 0 ≤ promocode.discount) (hhigh : promocode.discount ≤ 100) :
    (∀ items totals, displayCart s = CartView.lines items totals →
      Totals.WithinBounds promocode.discount totals) ∧
    (∀ totalQuantity totals,
      (checkout s).1 = CheckoutReport.ordered totalQuantity totals →
      Totals.WithinBounds promocode.discount totals) ∧
    (getCart s.storage ≠ [] →
      ∃ totalQuantity totals,
        displayCart s = CartView.lines (getCart s.storage) totals ∧
        (checkout s).1 = CheckoutReport.ordered totalQuantity totals ∧
        Totals.WithinBounds promocode.discount totals) := by
  have hS := calculateSubtotal_nonneg s hprices hquantities
  have hbounds := withinBounds_of_percentage (calculateSubtotal s).1 promocode.discount
    hS hlow hhigh
  by_cases hlen : (getCart s.storage).length = 0
  · refine ⟨?_, ?_, ?_⟩
    · intro items totals h
      simp [displayCart, hlen] at h
    · intro totalQuantity totals h
      simp [checkout, hlen] at h
    · intro hne
      exact absurd hlen (length_ne_zero_of_ne_nil _ hne)
  · have hdisplay : displayCart s = CartView.lines (getCart s.storage)
        { subtotal := (calculateSubtotal s).1,
          discount := (calculateSubtotal s).1 * (promocode.discount : ℚ) / 100,
          total := (calculateSubtotal s).1 -
            (calculateSubtotal s).1 * (promocode.discount : ℚ) / 100 } := by
      simp only [displayCart, hlen, if_false, happlied]
    have hcheckout : (checkout s).1 = CheckoutReport.ordered
        ((getCart s.storage).foldl (fun sum item => sum + item.quantity) 0)
        { subtotal := (calculateSubtotal s).1,
          discount := (calculateSubtotal s).1 * (promocode.discount : ℚ) / 100,
          total := (calculateSubtotal s).1 -
            (calculateSubtotal s).1 * (promocode.discount : ℚ) / 100 } := by
      simp only [checkout, hlen, if_false, happlied]
    refine ⟨?_, ?_, ?_⟩
    · intro items totals h
      rw [hdisplay] at h
      simp only [CartView.lines.injEq] at h
      rw [← h.2]
      exact hbounds
    · intro totalQuantity totals h
      rw [hcheckout] at h
      simp only [CheckoutReport.ordered.injEq] at h
      rw [← h.2]
      exact hbounds
    · intro _
      exact ⟨_, _, hdisplay, hcheckout, hbounds⟩

/-! ### Binary64 rounding -/

theorem roundHalfEven_intCast (k : Int) : roundHalfEven (k : ℚ) = k := by
  unfold roundHalfEven
  simp

theorem roundHalfEven_nonneg (t : ℚ) (h : 0 ≤ t) : 0 ≤ roundHalfEven t := by
  unfold roundHalfEven
  have hf : 0 ≤ ⌊t⌋ := Int.floor_nonneg.mpr h
  simp only []
  split
  · exact hf
  · split
    · omega
    · split <;> omega

theorem roundHalfEven_le (t : ℚ) (N : Int) (h : t ≤ (N : ℚ)) : roundHalfEven t ≤ N := by
  unfold roundHalfEven
  have hf : ⌊t⌋ ≤ N := Int.floor_le_iff.mpr (by
    have : (N : ℚ) < N + 1 := by linarith
    linarith)
  simp only []
  split
  · exact hf
  · rename_i hfrac
    have hne : ⌊t⌋ ≠ N := by
      intro heq
      apply hfrac
      have h1 : (⌊t⌋ : ℚ) ≤ t := Int.floor_le t
      rw [heq] at h1 ⊢
      have : t = N := le_antisymm h h1
      rw [this]; norm_num
    have hlt : ⌊t⌋ + 1 ≤ N := by omega
    split
    · exact hlt
    · split
      · exact hf
      · exact hlt

/-- A value more than half-way from the integer `f` to `f + 1` rounds to `f + 1`. -/
theorem roundHalfEven_eq_succ (t : ℚ) (f : Int) (hlo : (f : ℚ) + 1 / 2 < t)
    (hhi : t < (f : ℚ) + 1) : roundHalfEven t = f + 1 := by
  have hfloor : ⌊t⌋ = f := Int.floor_eq_iff.mpr ⟨by linarith, hhi⟩
  unfold roundHalfEven
  simp only [hfloor]
  have h1 : ¬ (t - (f : ℚ) < 1 / 2) := by linarith
  have h2 : 1 / 2 < t - (f : ℚ) := by linarith
  simp only [h1, h2, if_false, if_true]

theorem toDouble_zero : toDouble 0 = 0 := by
  simp [toDouble]

/-- The binary exponent of a value that lies between two neighbouring powers of
two. -/
theorem log_abs_eq (x : ℚ) (e : Int) (hlo : (2 : ℚ) ^ e ≤ |x|) (hhi : |x| < (2 : ℚ) ^ (e + 1)) :
    Int.log 2 |x| = e := by
  have hpos : 0 < |x| := lt_of_lt_of_le (by positivity) hlo
  have h1 : e ≤ Int.log 2 |x| :=
    (Int.zpow_le_iff_le_log (by norm_num) hpos).mp (by exact_mod_cast hlo)
  have h2 : Int.log 2 |x| < e + 1 :=
    (Int.lt_zpow_iff_log_lt (by norm_num) hpos).mp (by exact_mod_cast hhi)
  omega

/-- Rounding a value of binary exponent `e` whose quotient by `2 ^ (e - 52)` rounds
to `M`. -/
theorem toDouble_eq (x : ℚ) (e M : Int) (hlo : (2 : ℚ) ^ e ≤ |x|)
    (hhi : |x| < (2 : ℚ) ^ (e + 1))
    (hround : roundHalfEven (x / (2 : ℚ) ^ (e - 52)) = M) :
    toDouble x = (M : ℚ) * (2 : ℚ) ^ (e - 52) := by
  have hne : x ≠ 0 := by
    intro h
    rw [h, abs_zero] at hlo
    exact absurd hlo (not_le.mpr (by positivity))
  unfold toDouble
  simp only [hne, if_false, log_abs_eq x e hlo hhi, hround]

/-- For a positive value below `2 ^ 53` the spacing of the neighbouring JavaScript
numbers is one over a power of two, so every whole number is among them. -/
theorem ulp_of_lt (r : ℚ) (hpos : 0 < r) (hlt : r < 2 ^ 53) :
    ∃ k : ℕ, (2 : ℚ) ^ (Int.log 2 |r| - 52) = ((2 : ℚ) ^ k)⁻¹ := by
  have habs : |r| = r := abs_of_pos hpos
  rw [habs]
  have hlog : Int.log 2 r < 53 := by
    apply (Int.lt_zpow_iff_log_lt (by norm_num) hpos).mp
    exact_mod_cast hlt
  refine ⟨(52 - Int.log 2 r).toNat, ?_⟩
  have hk : ((52 - Int.log 2 r).toNat : ℤ) = 52 - Int.log 2 r := Int.toNat_of_nonneg (by omega)
  rw [← zpow_natCast, hk, ← zpow_neg]
  congr 1
  omega

/-- Rounding keeps a value between zero and a whole number below `2 ^ 53` between
them. -/
theorem toDouble_bounds (r : ℚ) (n : ℕ) (h0 : 0 ≤ r) (hle : r ≤ n) (hn : n < 2 ^ 53) :
    0 ≤ toDouble r ∧ toDouble r ≤ n := by
  rcases eq_or_lt_of_le h0 with hzero | hpos
  · rw [← hzero, toDouble_zero]
    exact ⟨le_refl _, by positivity⟩
  · have hlt : r < 2 ^ 53 := lt_of_le_of_lt hle (by exact_mod_cast hn)
    obtain ⟨k, hk⟩ := ulp_of_lt r hpos hlt
    have hne : r ≠ 0 := ne_of_gt hpos
    unfold toDouble
    simp only [hne, if_false, hk]
    have hpow : (0 : ℚ) < 2 ^ k := by positivity
    have hdiv : r / ((2 : ℚ) ^ k)⁻¹ = r * 2 ^ k := by
      rw [div_inv_eq_mul]
    rw [hdiv]
    constructor
    · apply mul_nonneg
      · exact_mod_cast roundHalfEven_nonneg _ (by positivity)
      · positivity
    · have hN : r * 2 ^ k ≤ ((n * 2 ^ k : ℤ) : ℚ) := by
        push_cast
        exact mul_le_mul_of_nonneg_right hle (le_of_lt hpow)
      have hround := roundHalfEven_le _ _ hN
      have hround' : (roundHalfEven (r * 2 ^ k) : ℚ) ≤ ((n * 2 ^ k : ℤ) : ℚ) := by
        exact_mod_cast hround
      calc (roundHalfEven (r * 2 ^ k) : ℚ) * ((2 : ℚ) ^ k)⁻¹
          ≤ ((n * 2 ^ k : ℤ) : ℚ) * ((2 : ℚ) ^ k)⁻¹ :=
            mul_le_mul_of_nonneg_right hround' (by positivity)
        _ = n := by
            push_cast
            field_simp

/-- A whole number below `2 ^ 53` is a JavaScript number: rounding keeps it. -/
theorem toDouble_natCast (n : ℕ) (hn : n < 2 ^ 53) : toDouble (n : ℚ) = n := by
  rcases Nat.eq_zero_or_pos n with rfl | hpos
  · simp [toDouble_zero]
  · have hpos' : (0 : ℚ) < n := by exact_mod_cast hpos
    have hlt : (n : ℚ) < 2 ^ 53 := by exact_mod_cast hn
    obtain ⟨k, hk⟩ := ulp_of_lt n hpos' hlt
    have hne : (n : ℚ) ≠ 0 := ne_of_gt hpos'
    unfold toDouble
    simp only [hne, if_false, hk]
    have hdiv : (n : ℚ) / ((2 : ℚ) ^ k)⁻¹ = ((n * 2 ^ k : ℤ) : ℚ) := by
      rw [div_inv_eq_mul]
      push_cast
      ring
    rw [hdiv, roundHalfEven_intCast]
    push_cast
    field_simp


/-! ### The totals in binary64 -/

/-- The products and sums of the subtotal of whole-number prices are whole numbers,
so as long as they stay below `2 ^ 53` no rounding takes place. -/
theorem foldl_double_exact (cart : List CartItem)
    (hprices : ∀ item ∈ cart, ∃ n : ℕ, item.price = (n : ℚ))
    (hquantities : ∀ item ∈ cart, 1 ≤ item.quantity) :
    ∀ a : ℕ,
      (a : ℚ) + (cart.map (fun item => item.price * (item.quantity : ℚ))).sum < 2 ^ 53 →
      cart.foldl
          (fun sum item => toDouble (sum + toDouble (item.price * (item.quantity : ℚ))))
          (a : ℚ) =
        (a : ℚ) + (cart.map (fun item => item.price * (item.quantity : ℚ))).sum ∧
      ∃ m : ℕ, (a : ℚ) + (cart.map (fun item => item.price * (item.quantity : ℚ))).sum
        = (m : ℚ) := by
  induction cart with
  | nil =>
    intro a _
    exact ⟨by simp, a, by simp⟩
  | cons item rest ih =>
    intro a hbound
    obtain ⟨n, hn⟩ := hprices item (List.mem_cons_self _ _)
    have hq := hquantities item (List.mem_cons_self _ _)
    obtain ⟨k, hk⟩ := Int.eq_ofNat_of_zero_le (by omega : 0 ≤ item.quantity)
    have hprod : item.price * (item.quantity : ℚ) = ((n * k : ℕ) : ℚ) := by
      rw [hn, hk]
      push_cast
      ring
    have hrest_prices : ∀ x ∈ rest, ∃ n : ℕ, x.price = (n : ℚ) :=
      fun x hx => hprices x (List.mem_cons_of_mem _ hx)
    have hrest_q : ∀ x ∈ rest, 1 ≤ x.quantity :=
      fun x hx => hquantities x (List.mem_cons_of_mem _ hx)
    have hrest_nonneg :
        0 ≤ (rest.map (fun item => item.price * (item.quantity : ℚ))).sum := by
      apply List.sum_nonneg
      intro x hx
      obtain ⟨y, hy, rfl⟩ := List.mem_map.mp hx
      obtain ⟨m, hm⟩ := hrest_prices y hy
      have hyq : (0 : ℚ) ≤ (y.quantity : ℚ) := by
        have := hrest_q y hy
        exact_mod_cast (by omega : (0 : Int) ≤ y.quantity)
      rw [hm]
      exact mul_nonneg (by positivity) hyq
    simp only [List.map_cons, List.sum_cons] at hbound ⊢
    rw [hprod] at hbound ⊢
    have hsum_lt : ((a + n * k : ℕ) : ℚ) < 2 ^ 53 := by
      push_cast
      push_cast at hbound
      linarith
    have hprod_lt : ((n * k : ℕ) : ℚ) < 2 ^ 53 := by
      have : ((n * k : ℕ) : ℚ) ≤ ((a + n * k : ℕ) : ℚ) := by
        push_cast
        have : (0 : ℚ) ≤ (a : ℚ) := by positivity
        linarith
      linarith
    have h1 : toDouble ((n * k : ℕ) : ℚ) = ((n * k : ℕ) : ℚ) :=
      toDouble_natCast _ (by exact_mod_cast hprod_lt)
    have h2 : toDouble ((a : ℚ) + ((n * k : ℕ) : ℚ)) = ((a + n * k : ℕ) : ℚ) := by
      have := toDouble_natCast (a + n * k) (by exact_mod_cast hsum_lt)
      rw [← this]
      push_cast
      rfl
    simp only [List.foldl_cons]
    rw [hprod, h1, h2]
    have hbound' : ((a + n * k : ℕ) : ℚ) +
        (rest.map (fun item => item.price * (item.quantity : ℚ))).sum < 2 ^ 53 := by
      push_cast
      push_cast at hbound
      linarith
    obtain ⟨ih1, m, ih2⟩ := ih hrest_prices hrest_q (a + n * k) hbound'
    refine ⟨?_, m, ?_⟩
    · rw [ih1]
      push_cast
      ring
    · rw [← ih2]
      push_cast
      ring

/-- With whole-number prices and a subtotal below `2 ^ 53` the subtotal computed in
binary64 is the exact one, and it is a whole number. -/
theorem calculateSubtotalDouble_exact (s : CartPage)
    (hprices : ∀ item ∈ getCart s.storage, ∃ n : ℕ, item.price = (n : ℚ))
    (hquantities : ∀ item ∈ getCart s.storage, 1 ≤ item.quantity)
    (hrange : (calculateSubtotal s).1 < 2 ^ 53) :
    calculateSubtotalDouble s = (calculateSubtotal s).1 ∧
    ∃ m : ℕ, (calculateSubtotal s).1 = (m : ℚ) := by
  have hsub : (calculateSubtotal s).1 =
      ((getCart s.storage).map (fun item => item.price * (item.quantity : ℚ))).sum := by
    unfold calculateSubtotal
    simp only [foldl_add_eq_sum, zero_add]
  rw [hsub] at hrange ⊢
  have h := foldl_double_exact (getCart s.storage) hprices hquantities 0
    (by simpa using hrange)
  obtain ⟨h1, m, h2⟩ := h
  simp only [Nat.cast_zero, zero_add] at h1 h2
  exact ⟨h1, m, h2⟩

/-- The three statements that compute discount and total, each operation rounded
to binary64, keep within the bounds when the subtotal is a whole number with
`subtotal * 100` below `2 ^ 53` and the percentage is a whole number in
`[0, 100]`. -/
theorem withinBounds_double (m : ℕ) (D : Int) (hrange : m * 100 < 2 ^ 53)
    (hlow : 0 ≤ D) (hhigh : D ≤ 100) :
    Totals.WithinBounds D
      { subtotal := (m : ℚ),
        discount := toDouble (toDouble ((m : ℚ) * (D : ℚ)) / 100),
        total := (toDouble ((m : ℚ) - toDouble (toDouble ((m : ℚ) * (D : ℚ)) / 100))) } := by
  obtain ⟨d, rfl⟩ := Int.eq_ofNat_of_zero_le hlow
  have hd : d ≤ 100 := by omega
  have hm : m < 2 ^ 53 := by omega
  have hmd : m * d < 2 ^ 53 := lt_of_le_of_lt (Nat.mul_le_mul_left m hd) hrange
  have hprod : toDouble ((m : ℚ) * ((d : ℤ) : ℚ)) = ((m * d : ℕ) : ℚ) := by
    have := toDouble_natCast (m * d) hmd
    rw [← this]
    push_cast
    rfl
  rw [hprod]
  have hm0 : (0 : ℚ) ≤ (m : ℚ) := by positivity
  have hq0 : (0 : ℚ) ≤ ((m * d : ℕ) : ℚ) / 100 := by positivity
  have hq1 : ((m * d : ℕ) : ℚ) / 100 ≤ (m : ℚ) := by
    have hd' : (d : ℚ) ≤ 100 := by exact_mod_cast hd
    have : (m : ℚ) * (d : ℚ) ≤ (m : ℚ) * 100 := mul_le_mul_of_nonneg_left hd' hm0
    push_cast
    linarith
  obtain ⟨hdisc0, hdisc1⟩ := toDouble_bounds _ m hq0 hq1 hm
  obtain ⟨htot0, htot1⟩ := toDouble_bounds
    ((m : ℚ) - toDouble (((m * d : ℕ) : ℚ) / 100)) m (by linarith) (by linarith) hm
  refine ⟨hdisc0, hdisc1, htot0, htot1, ?_, ?_⟩
  · intro hzero
    have hd0 : d = 0 := by exact_mod_cast hzero
    subst hd0
    show toDouble ((m : ℚ) - toDouble (((m * 0 : ℕ) : ℚ) / 100)) = (m : ℚ)
    simp only [Nat.mul_zero, Nat.cast_zero, zero_div, toDouble_zero, sub_zero]
    exact toDouble_natCast m hm
  · intro hfull
    have hd100 : d = 100 := by exact_mod_cast hfull
    subst hd100
    show toDouble ((m : ℚ) - toDouble (((m * 100 : ℕ) : ℚ) / 100)) = 0
    have hquot : ((m * 100 : ℕ) : ℚ) / 100 = (m : ℚ) := by
      push_cast
      field_simp
    rw [hquot, toDouble_natCast m hm, sub_self, toDouble_zero]


/-- C26, for whole-number prices. For a cart whose prices are whole numbers (as
all prices of the catalog are) and whose quantities are at least one, with
`subtotal * 100` below `2 ^ 53`, and an applied promo code whose percentage `D` is
an integer in `[0, 100]`, the figures that `displayCart` and `checkout` compute in
the arithmetic of JavaScript numbers satisfy `0 ≤ discount ≤ subtotal` and
`0 ≤ total ≤ subtotal`, with `total = subtotal` at `D = 0` and `total = 0` at
`D = 100`; on a non-empty cart both do compute them. -/
theorem totals_within_bounds (s : CartPage) (promocode : Promocode)
    (hprices : ∀ item ∈ getCart s.storage, ∃ n : ℕ, item.price = (n : ℚ))
    (hquantities : ∀ item ∈ getCart s.storage, 1 ≤ item.quantity)
    (hrange : (calculateSubtotal s).1 * 100 < 2 ^ 53)
    (happlied : s.appliedPromocode = some promocode)
    (hlow : 0 ≤ promocode.discount) (hhigh : promocode.discount ≤ 100) :
    (∀ items totals, displayCartDouble s = CartView.lines items totals →
      Totals.WithinBounds promocode.discount totals) ∧
    (∀ totalQuantity totals,
      (checkoutDouble s).1 = CheckoutReport.ordered totalQuantity totals →
      Totals.WithinBounds promocode.discount totals) ∧
    (getCart s.storage ≠ [] →
      ∃ totalQuantity totals,
        displayCartDouble s = CartView.lines (getCart s.storage) totals ∧
        (checkoutDouble s).1 = CheckoutReport.ordered totalQuantity totals ∧
        Totals.WithinBounds promocode.discount totals) := by
  have hnonneg : ∀ item ∈ getCart s.storage, 0 ≤ item.price := by
    intro item hitem
    obtain ⟨n, hn⟩ := hprices item hitem
    rw [hn]
    positivity
  have hS := calculateSubtotal_nonneg s hnonneg hquantities
  obtain ⟨hsub, m, hm⟩ :=
    calculateSubtotalDouble_exact s hprices hquantities (by linarith)
  have hm100 : m * 100 < 2 ^ 53 := by
    rw [hm] at hrange
    exact_mod_cast hrange
  have hbounds := withinBounds_double m promocode.discount hm100 hlow hhigh
  by_cases hlen : (getCart s.storage).length = 0
  · refine ⟨?_, ?_, ?_⟩
    · intro items totals h
      simp [displayCartDouble, hlen] at h
    · intro totalQuantity totals h
      simp [checkoutDouble, hlen] at h
    · intro hne
      exact absurd hlen (length_ne_zero_of_ne_nil _ hne)
  · have hdisplay : displayCartDouble s = CartView.lines (getCart s.storage)
        { subtotal := (m : ℚ),
          discount := toDouble (toDouble ((m : ℚ) * (promocode.discount : ℚ)) / 100),
          total := (toDouble ((m : ℚ) -
            toDouble (toDouble ((m : ℚ) * (promocode.discount : ℚ)) / 100))) } := by
      simp only [displayCartDouble, hlen, if_false, happlied, hsub, hm]
    have hcheckout : (checkoutDouble s).1 = CheckoutReport.ordered
        ((getCart s.storage).foldl (fun sum item => sum + item.quantity) 0)
        { subtotal := (m : ℚ),
          discount := toDouble (toDouble ((m : ℚ) * (promocode.discount : ℚ)) / 100),
          total := (toDouble ((m : ℚ) -
            toDouble (toDouble ((m : ℚ) * (promocode.discount : ℚ)) / 100))) } := by
      simp only [checkoutDouble, hlen, if_false, happlied, hsub, hm]
    refine ⟨?_, ?_, ?_⟩
    · intro items totals h
      rw [hdisplay] at h
      simp only [CartView.lines.injEq] at h
      rw [← h.2]
      exact hbounds
    · intro totalQuantity totals h
      rw [hcheckout] at h
      simp only [CheckoutReport.ordered.injEq] at h
      rw [← h.2]
      exact hbounds
    · intro _
      exact ⟨_, _, hdisplay, hcheckout, hbounds⟩

/-- A valid instance of the amended C26: the sample cart page, with the prices 450
and 380 and its 15 % promo code. -/
theorem totals_within_bounds_witness :
    ((∀ item ∈ getCart sampleCartPage.storage, ∃ n : ℕ, item.price = (n : ℚ)) ∧
      (∀ item ∈ getCart sampleCartPage.storage, 1 ≤ item.quantity) ∧
      (calculateSubtotal sampleCartPage).1 * 100 < 2 ^ 53 ∧
      sampleCartPage.appliedPromocode = some { code := "SAKURA15", discount := 15 } ∧
      (0 : Int) ≤ 15 ∧ (15 : Int) ≤ 100) ∧
    ∃ totalQuantity totals,
      displayCartDouble sampleCartPage =
        CartView.lines (getCart sampleCartPage.storage) totals ∧
      (checkoutDouble sampleCartPage).1 = CheckoutReport.ordered totalQuantity totals ∧
      Totals.WithinBounds 15 totals :=
  have hprices : ∀ item ∈ getCart sampleCartPage.storage, ∃ n : ℕ, item.price = (n : ℚ) := by
    intro item hitem
    simp only [getCart, sampleCartPage, List.mem_cons, List.mem_singleton,
      List.not_mem_nil, or_false] at hitem
    rcases hitem with rfl | rfl
    · exact ⟨450, by norm_num⟩
    · exact ⟨380, by norm_num⟩
  have hquantities : ∀ item ∈ getCart sampleCartPage.storage, 1 ≤ item.quantity := by
    intro item hitem
    simp only [getCart, sampleCartPage, List.mem_cons, List.mem_singleton,
      List.not_mem_nil, or_false] at hitem
    rcases hitem with rfl | rfl <;> decide
  have hrange : (calculateSubtotal sampleCartPage).1 * 100 < 2 ^ 53 := by
    simp only [calculateSubtotal, getCart, sampleCartPage, List.foldl_cons, List.foldl_nil]
    norm_num
  ⟨⟨hprices, hquantities, hrange, rfl, by decide, by decide⟩,
    (totals_within_bounds sampleCartPage { code := "SAKURA15", discount := 15 }
      hprices hquantities hrange rfl (by decide) (by decide)).2.2 (by decide)⟩

/-- Rounding a value of binary exponent `e` that is a whole multiple of
`2 ^ (e - 52)`: it is a JavaScript number already. -/
theorem toDouble_eq_of_exact (x : ℚ) (e M : Int) (hlo : (2 : ℚ) ^ e ≤ |x|)
    (hhi : |x| < (2 : ℚ) ^ (e + 1)) (hexact : x / (2 : ℚ) ^ (e - 52) = (M : ℚ)) :
    toDouble x = (M : ℚ) * (2 : ℚ) ^ (e - 52) :=
  toDouble_eq x e M hlo hhi (by rw [hexact, roundHalfEven_intCast])

/-- The literal `0.07` denotes the JavaScript number `1261007895663739 / 2 ^ 54`. -/
theorem toDouble_seven_hundredths :
    toDouble (7 / 100) = 1261007895663739 / 2 ^ 54 := by
  rw [toDouble_eq _ (-4) 5044031582654956
    (by rw [abs_of_pos (by norm_num)]; norm_num)
    (by rw [abs_of_pos (by norm_num)]; norm_num)
    (by
      have h := roundHalfEven_eq_succ ((7 / 100 : ℚ) / (2 : ℚ) ^ ((-4 : ℤ) - 52))
        5044031582654955 (by norm_num) (by norm_num)
      rw [h]
      norm_num)]
  norm_num

/-- Three times `0.07` is computed without rounding. -/
theorem toDouble_fractional_product :
    toDouble ((1261007895663739 / 2 ^ 54 : ℚ) * 3) = 3783023686991217 / 2 ^ 54 := by
  rw [toDouble_eq_of_exact _ (-3) 7566047373982434
    (by rw [abs_of_pos (by norm_num)]; norm_num)
    (by rw [abs_of_pos (by norm_num)]; norm_num)
    (by norm_num)]
  norm_num

/-- The sum `0 + 0.21000000000000002` is computed without rounding. -/
theorem toDouble_fractional_sum :
    toDouble ((0 : ℚ) + 3783023686991217 / 2 ^ 54) = 3783023686991217 / 2 ^ 54 := by
  rw [toDouble_eq_of_exact _ (-3) 7566047373982434
    (by rw [abs_of_pos (by norm_num)]; norm_num)
    (by rw [abs_of_pos (by norm_num)]; norm_num)
    (by norm_num)]
  norm_num

/-- The product `0.21000000000000002 * 100` is rounded up, to
`21.000000000000004`. -/
theorem toDouble_fractional_times_hundred :
    toDouble ((3783023686991217 / 2 ^ 54 : ℚ) * 100) = 5910974510923777 / 2 ^ 48 := by
  rw [toDouble_eq _ 4 5910974510923777
    (by rw [abs_of_pos (by norm_num)]; norm_num)
    (by rw [abs_of_pos (by norm_num)]; norm_num)
    (by
      have h := roundHalfEven_eq_succ
        (((3783023686991217 / 2 ^ 54 : ℚ) * 100) / (2 : ℚ) ^ ((4 : ℤ) - 52))
        5910974510923776 (by norm_num) (by norm_num)
      rw [h]
      norm_num)]
  norm_num

/-- The quotient `21.000000000000004 / 100` is rounded up, to
`0.21000000000000005`. -/
theorem toDouble_fractional_discount :
    toDouble ((5910974510923777 / 2 ^ 48 : ℚ) / 100) = 7566047373982435 / 2 ^ 55 := by
  rw [toDouble_eq _ (-3) 7566047373982435
    (by rw [abs_of_pos (by norm_num)]; norm_num)
    (by rw [abs_of_pos (by norm_num)]; norm_num)
    (by
      have h := roundHalfEven_eq_succ
        (((5910974510923777 / 2 ^ 48 : ℚ) / 100) / (2 : ℚ) ^ ((-3 : ℤ) - 52))
        7566047373982434 (by norm_num) (by norm_num)
      rw [h]
      norm_num)]
  norm_num

/-- The difference `0.21000000000000002 - 0.21000000000000005` is computed without
rounding: it is `-(2 ^ (-55))`. -/
theorem toDouble_fractional_total :
    toDouble ((3783023686991217 / 2 ^ 54 : ℚ) - 7566047373982435 / 2 ^ 55) =
      -1 / 2 ^ 55 := by
  rw [toDouble_eq_of_exact _ (-55) (-4503599627370496)
    (by rw [abs_of_neg (by norm_num)]; norm_num)
    (by rw [abs_of_neg (by norm_num)]; norm_num)
    (by norm_num)]
  norm_num

/-- The subtotal of three portions at `0.07`, as JavaScript computes it. -/
theorem calculateSubtotalDouble_fractionalPricePage :
    calculateSubtotalDouble fractionalPricePage = 3783023686991217 / 2 ^ 54 := by
  simp only [calculateSubtotalDouble, getCart, fractionalPricePage, List.foldl_cons,
    List.foldl_nil, Int.cast_ofNat]
  rw [toDouble_fractional_product, toDouble_fractional_sum]

/-- C26 fails as stated: three portions at the price `0.07` with a promo code of
100 % satisfy the conditions (the price is not negative, the quantity is at least
one, the percentage is in `[0, 100]`), yet in the arithmetic of JavaScript numbers
`displayCart` and `checkout` compute the subtotal `0.21000000000000002`, the
discount `0.21000000000000005` and the total `-2.7755575615628914e-17`: the
discount exceeds the subtotal, and the total is negative, not zero. -/
theorem totals_within_bounds_counterexample :
    toDouble (7 / 100) = 1261007895663739 / 2 ^ 54 ∧
    (∀ item ∈ getCart fractionalPricePage.storage,
      item.price = 1261007895663739 / 2 ^ 54 ∧ 0 ≤ item.price ∧ 1 ≤ item.quantity) ∧
    fractionalPricePage.appliedPromocode = some { code := "FREE", discount := 100 } ∧
    displayCartDouble fractionalPricePage =
      CartView.lines (getCart fractionalPricePage.storage) fractionalTotals ∧
    (checkoutDouble fractionalPricePage).1 = CheckoutReport.ordered 3 fractionalTotals ∧
    fractionalTotals.subtotal < fractionalTotals.discount ∧
    fractionalTotals.total < 0 ∧
    ¬ Totals.WithinBounds 100 fractionalTotals := by
  have hdisplay : displayCartDouble fractionalPricePage =
      CartView.lines (getCart fractionalPricePage.storage) fractionalTotals := by
    unfold displayCartDouble
    rw [calculateSubtotalDouble_fractionalPricePage]
    simp only [getCart, fractionalPricePage, List.length_singleton, one_ne_zero, if_false,
      Int.cast_ofNat, fractionalTotals]
    rw [toDouble_fractional_times_hundred, toDouble_fractional_discount,
      toDouble_fractional_total]
  have hcheckout : (checkoutDouble fractionalPricePage).1 =
      CheckoutReport.ordered 3 fractionalTotals := by
    unfold checkoutDouble
    rw [calculateSubtotalDouble_fractionalPricePage]
    simp only [getCart, fractionalPricePage, List.length_singleton, one_ne_zero, if_false,
      Int.cast_ofNat, fractionalTotals, List.foldl_cons, List.foldl_nil, zero_add]
    rw [toDouble_fractional_times_hundred, toDouble_fractional_discount,
      toDouble_fractional_total]
  refine ⟨toDouble_seven_hundredths, ?_, rfl, hdisplay, hcheckout, ?_, ?_, ?_⟩
  · intro item hitem
    simp only [getCart, fractionalPricePage, List.mem_singleton] at hitem
    subst hitem
    refine ⟨rfl, by norm_num, by decide⟩
  · simp only [fractionalTotals]
    norm_num
  · simp only [fractionalTotals]
    norm_num
  · intro h
    have h2 := h.2.2.1
    simp only [fractionalTotals] at h2
    norm_num at h2

theorem set_of_getElem? {α : Type} (xs : List α) (a : α) :
    ∀ i : Nat, xs[i]? = some a → xs.set i a = xs := by
  induction xs with
  | nil => intro i h; simp at h
  | cons x rest ih =>
    intro i h
    cases i with
    | zero =>
      simp only [List.getElem?_cons_zero, Option.some.injEq] at h
      subst h
      rfl
    | succ i =>
      simp only [List.getElem?_cons_succ] at h
      simp [ih i h]

theorem getAt_eq_some {α : Type} (xs : List α) (index : Int) (a : α)
    (h : getAt xs index = some a) : ∃ i : Nat, index = (i : Int) ∧ xs[i]? = some a := by
  unfold getAt at h
  by_cases hneg : index < 0
  · simp [hneg] at h
  · simp only [hneg, if_false] at h
    exact ⟨index.toNat, by omega, h⟩

/-- A storage whose cart has a line at some position holds the key `cart`. -/
theorem cart_eq_some_of_get (ls : LocalStorage) (i : Nat) (item : CartItem)
    (hget : (getCart ls)[i]? = some item) : ls.cart = some (getCart ls) := by
  unfold getCart at hget ⊢
  cases h : ls.cart with
  | none =>
    rw [h] at hget
    simp at hget
  | some cart => rfl

/-- `updateCartQuantity` never makes the stored cart longer. -/
theorem length_updateCartQuantity_le (index change : Int) (s : CartPage) :
    (getCart (updateCartQuantity index change s).2.storage).length ≤
      (getCart s.storage).length := by
  cases hget : getAt (getCart s.storage) index with
  | none =>
    have : updateCartQuantity index change s = (Outcome.typeError, s) := by
      unfold updateCartQuantity
      simp only [hget]
    rw [this]
  | some item =>
    obtain ⟨i, rfl, hget'⟩ := getAt_eq_some _ _ _ hget
    by_cases hle : item.quantity + change ≤ 0
    · rw [updateCartQuantity_remove s i change item hget' hle]
      simp only [getCart_setCart]
      exact List.length_eraseIdx_le _ _
    · rw [updateCartQuantity_keep s i change item hget' (by omega)]
      simp only [getCart_setCart, List.length_set, le_refl]

/-- C27, as the code has it. For a valid index `i` whose line has a quantity of
at least one and a `change` that keeps it at least one, `updateCartQuantity(i,
change)` followed by `updateCartQuantity(i, -change)` gives back exactly the
state it started from, stored cart included. When the quantity plus `change` is
at most zero the line is removed, and no second call at index `i`, whatever its
change, gives the original stored cart back. -/
theorem updateCartQuantity_undo (s : CartPage) (i : Nat) (change : Int) (item : CartItem)
    (hget : (getCart s.storage)[i]? = some item) :
    (1 ≤ item.quantity → 1 ≤ item.quantity + change →
      updateCartQuantity (i : Int) (-change) (updateCartQuantity (i : Int) change s).2 =
        (Outcome.ok, s) ∧
      getCart (updateCartQuantity (i : Int) (-change)
        (updateCartQuantity (i : Int) change s).2).2.storage = getCart s.storage) ∧
    (item.quantity + change ≤ 0 →
      (getCart (updateCartQuantity (i : Int) change s).2.storage).length + 1 =
        (getCart s.storage).length ∧
      ∀ change' : Int,
        getCart (updateCartQuantity (i : Int) change'
          (updateCartQuantity (i : Int) change s).2).2.storage ≠ getCart s.storage) := by
  have hlt := lt_length_of_getElem?_eq_some _ _ _ hget
  refine ⟨?_, ?_⟩
  · intro hpos hge
    have hfirst := updateCartQuantity_keep s i change item hget hge
    have hget1 : (getCart (updateCartQuantity (i : Int) change s).2.storage)[i]? =
        some { item with quantity := item.quantity + change } := by
      rw [hfirst]
      simp only [getCart_setCart]
      exact List.getElem?_set_self hlt
    have hsecond := updateCartQuantity_keep (updateCartQuantity (i : Int) change s).2 i
      (-change) { item with quantity := item.quantity + change } hget1
      (by show 1 ≤ item.quantity + change + -change; omega)
    have hitem : ({ ({ item with quantity := item.quantity + change } : CartItem) with
        quantity := item.quantity + change + -change } : CartItem) = item := by
      obtain ⟨dishId, name, price, quantity, image⟩ := item
      simp
    have hstate : updateCartQuantity (i : Int) (-change)
        (updateCartQuantity (i : Int) change s).2 = (Outcome.ok, s) := by
      rw [hsecond, hitem, hfirst]
      simp only [getCart_setCart, List.set_set, set_of_getElem? _ _ i hget]
      have hcart := cart_eq_some_of_get s.storage i item hget
      obtain ⟨promocodes, applied, ⟨cart, stored⟩⟩ := s
      cases cart with
      | none => simp at hcart
      | some lines => rfl
    exact ⟨hstate, by rw [hstate]⟩
  · intro hle
    have hfirst := updateCartQuantity_remove s i change item hget hle
    have hlen : (getCart (updateCartQuantity (i : Int) change s).2.storage).length + 1 =
        (getCart s.storage).length := by
      rw [hfirst]
      simp only [getCart_setCart]
      rw [List.length_eraseIdx_of_lt hlt]
      omega
    refine ⟨hlen, ?_⟩
    intro change' heq
    have hle' := length_updateCartQuantity_le (i : Int) change'
      (updateCartQuantity (i : Int) change s).2
    rw [heq] at hle'
    omega

/-- A valid instance of the amended C27: one portion is taken from the first line
of the sample cart and put back. -/
theorem updateCartQuantity_undo_witness :
    ((getCart sampleCartPage.storage)[0]? =
        some { dishId := 1, name := "Филадельфия", price := 450, quantity := 2, image := "" } ∧
      (1 : Int) ≤ 2 ∧ (1 : Int) ≤ 2 + (-1)) ∧
    updateCartQuantity ((0 : Nat) : Int) (-(-1))
      (updateCartQuantity ((0 : Nat) : Int) (-1) sampleCartPage).2 =
        (Outcome.ok, sampleCartPage) :=
  ⟨⟨rfl, by decide, by decide⟩,
    ((updateCartQuantity_undo sampleCartPage 0 (-1)
      { dishId := 1, name := "Филадельфия", price := 450, quantity := 2, image := "" }
      rfl).1 (by decide) (by decide)).1⟩

/-- C27 fails as stated: on a stored cart whose only line has quantity zero, index
0 is valid and the quantity plus 1 is at least one, yet `updateCartQuantity(0, 1)`
followed by `updateCartQuantity(0, -1)` leaves the cart empty, because the second
call brings the quantity to zero and removes the line. -/
theorem updateCartQuantity_undo_counterexample :
    (getCart zeroQuantityPage.storage)[0]? =
      some { dishId := 1, name := "Филадельфия", price := 450, quantity := 0, image := "" } ∧
    (1 : Int) ≤ 0 + 1 ∧
    getCart (updateCartQuantity 0 1 zeroQuantityPage).2.storage =
      [{ dishId := 1, name := "Филадельфия", price := 450, quantity := 1, image := "" }] ∧
    getCart (updateCartQuantity 0 (-1)
      (updateCartQuantity 0 1 zeroQuantityPage).2).2.storage = [] ∧
    getCart (updateCartQuantity 0 (-1)
      (updateCartQuantity 0 1 zeroQuantityPage).2).2.storage ≠
        getCart zeroQuantityPage.storage := by
  decide

end KiotoSusi
